import Mathlib

/-!
Shallow embedding of the Telegram Bot API documentation scraper
(`scrape.py`) and proofs about the claims of its specification.

Strings are modelled through their character lists (`String.data`), and every
string operation used by the source (startswith, slicing, split, strip,
replace, regular-expression searches) is implemented here as an executable
function on `List Char`, mirroring the Python semantics.  Whitespace is
modelled as ASCII whitespace (`Char.isWhitespace`); the source only ever
meets ASCII whitespace in the constructs the claims are about.
-/

namespace TgScrape

/-! ## Python string primitives -/

/-- Python `s.startswith(p)`. -/
def pyStartsWith (s p : String) : Bool :=
  p.data.isPrefixOf s.data

/-- Python character slicing `s[n:]`. -/
def pyDropChars (s : String) (n : Nat) : String :=
  ⟨s.data.drop n⟩

/-- Python `s.strip()`: remove leading and trailing whitespace. -/
def pyStrip (s : String) : String :=
  ⟨((s.data.dropWhile Char.isWhitespace).reverse.dropWhile Char.isWhitespace).reverse⟩

/-- Worker for `pySplit`: split on the (non-empty) literal separator,
left to right, non-overlapping, keeping empty pieces, like Python
`str.split(sep)`.  Structural recursion on a fuel argument so that the
function reduces inside the kernel; every step consumes at least one
character, so passing the length of the input as fuel is always enough
and the fuel-exhausted branch is unreachable. -/
def splitSepGo (sep : List Char) : Nat → List Char → List Char → List (List Char)
  | _, [], acc => [acc.reverse]
  | 0, cs, acc => [acc.reverse ++ cs]
  | fuel + 1, c :: rest, acc =>
    if sep.isPrefixOf (c :: rest) then
      acc.reverse :: splitSepGo sep fuel (rest.drop (sep.length - 1)) []
    else
      splitSepGo sep fuel rest (c :: acc)

/-- Python `s.split(sep)` for a literal non-empty separator. -/
def pySplit (s sep : String) : List String :=
  (splitSepGo sep.data s.data.length s.data []).map (fun cs => ⟨cs⟩)

/-- Python `s.replace(pat, rep)` for a non-empty pattern: replace
non-overlapping occurrences left to right.  Fuel-based like `splitSepGo`. -/
def replaceSubGo (pat rep : List Char) : Nat → List Char → List Char
  | _, [] => []
  | 0, cs => cs
  | fuel + 1, c :: rest =>
    if pat.isPrefixOf (c :: rest) then
      rep ++ replaceSubGo pat rep fuel (rest.drop (pat.length - 1))
    else
      c :: replaceSubGo pat rep fuel rest

/-- Python `s.replace(pat, rep)`. -/
def pyReplace (s pat rep : String) : String :=
  ⟨replaceSubGo pat.data rep.data s.data.length s.data⟩

/-- Python `s.split()` (no argument): split on whitespace runs,
discarding empty pieces. -/
def splitWsGo : List Char → List Char → List String
  | [], acc => if acc.isEmpty then [] else [⟨acc.reverse⟩]
  | c :: rest, acc =>
    if c.isWhitespace then
      (if acc.isEmpty then [] else [(⟨acc.reverse⟩ : String)]) ++ splitWsGo rest []
    else
      splitWsGo rest (c :: acc)

/-- Python `s.split()`. -/
def pyWords (s : String) : List String :=
  splitWsGo s.data []

/-- Python `"x".join(items)` generalised: join with a separator. -/
def pyJoin (sep : String) (items : List String) : String :=
  match items with
  | [] => ""
  | x :: rest => rest.foldl (fun acc y => acc ++ sep ++ y) x

/-- The characters of Python's `string.punctuation`
(the ASCII characters 0x21-0x2f, 0x3a-0x40, 0x5b-0x60, 0x7b-0x7e).
The apostrophe, backtick and brace characters are spelled numerically. -/
def punctuationChars : List Char :=
  "!\"#$%&()*+,-./:;<=>?@[\\]^_~".data ++
    [Char.ofNat 39, Char.ofNat 96, Char.ofNat 123, Char.ofNat 124, Char.ofNat 125]

/-- Python `s.translate(str.maketrans("", "", string.punctuation))`:
delete every punctuation character. -/
def pyRemovePunct (s : String) : String :=
  ⟨s.data.filter (fun c => !(punctuationChars.contains c))⟩

/-- Substring containment test, Python `pat in s`, for a single character. -/
def pyContainsChar (s : String) (c : Char) : Bool :=
  s.data.contains c

/-! ## Constants of the source -/

def ROOT_URL : String := "https://core.telegram.org"
def API_URL : String := ROOT_URL ++ "/bots/api"
def TG_CORE_TYPES : List String := ["String", "Boolean", "Integer", "Float"]
def APPROVED_NO_SUBTYPES : List String := ["VoiceChatStarted", "InputFile", "CallbackGame"]

/-! ## The type-string parser (`get_proper_type`, `clean_tg_type`) -/

def get_proper_type (t : String) : String :=
  if t = "Messages" then "Message"
  else if t = "Float number" then "Float"
  else if t = "Int" then "Integer"
  else if t = "True" ∨ t = "Bool" then "Boolean"
  else t

def clean_tg_type (t : String) : List String :=
  let pref : String := if pyStartsWith t "Array of " then "Array of " else ""
  let t := if pyStartsWith t "Array of " then pyDropChars t 9 else t
  let fixed_ors := (pySplit t " or ").map pyStrip
  let fixed_ands := (fixed_ors.map (fun fo => (pySplit fo " and ").map pyStrip)).flatten
  let fixed_commas := (fixed_ands.map (fun fa => (pySplit fa ", ").map pyStrip)).flatten
  fixed_commas.map (fun x => pref ++ get_proper_type x)

/-- The validator's `while t.startswith("Array of "): t = t[len("Array of "):]`
loop, on character lists.  Fuel-based like `splitSepGo`: each iteration
removes nine characters, so the length of the input is always enough fuel. -/
def stripArrayGo : Nat → List Char → List Char
  | 0, cs => cs
  | fuel + 1, cs =>
    if ("Array of ".data).isPrefixOf cs then
      stripArrayGo fuel (cs.drop 9)
    else
      cs

/-- Strip every leading `"Array of "` marker from a type name. -/
def stripArray (t : String) : String :=
  ⟨stripArrayGo t.data.length t.data⟩

/-! ## The return-type inferrer (`get_method_return_type`, `extract_return_type`)

The source uses three `re` searches.  They are modelled here directly, at
the level of the concrete patterns, with Python's leftmost-match and
greedy-quantifier semantics:

* pattern A, `(?:on success,|returns)([^.]*)(?:on success)?` (ignore case):
  find the leftmost occurrence of `"on success,"` or `"returns"` (the first
  alternative is preferred at equal positions); the group is the following
  run of non-period characters (the trailing optional group never shrinks a
  greedy `[^.]*`);
* pattern B, `([^.]*)(?:is returned)` (ignore case): the leftmost position
  from which a period-free run reaches an occurrence of `"is returned"`;
  the group runs greedily to the last such occurrence;
* `(?:array of )+(\w*)` (ignore case): the leftmost chain of `"array of "`
  markers, greedily consumed, followed by a maximal run of word characters.
-/

/-- Case-insensitive prefix test (ASCII case folding, like `re.IGNORECASE`
on the ASCII patterns used by the source). -/
def ciIsPrefixOf : List Char → List Char → Bool
  | [], _ => true
  | _ :: _, [] => false
  | p :: ps, c :: cs => p.toLower == c.toLower && ciIsPrefixOf ps cs

/-- Pattern A: the captured group of
`re.search("(?:on success,|returns)([^.]*)(?:on success)?", s, re.IGNORECASE)`,
or `none` when there is no match. -/
def search1Group : List Char → Option (List Char)
  | [] => none
  | c :: rest =>
    if ciIsPrefixOf ("on success,".data) (c :: rest) then
      some (((c :: rest).drop 11).takeWhile (fun ch => ch != Char.ofNat 46))
    else if ciIsPrefixOf ("returns".data) (c :: rest) then
      some (((c :: rest).drop 7).takeWhile (fun ch => ch != Char.ofNat 46))
    else
      search1Group rest

/-- Largest offset `q' ≤ q` at which `"is returned"` matches
(case-insensitively) in `s`, if any. -/
def lastIsReturnedLE (s : List Char) : Nat → Option Nat
  | 0 => if ciIsPrefixOf ("is returned".data) s then some 0 else none
  | q + 1 =>
    if ciIsPrefixOf ("is returned".data) (s.drop (q + 1)) then some (q + 1)
    else lastIsReturnedLE s q

/-- Pattern B: the captured group of
`re.search("([^.]*)(?:is returned)", s, re.IGNORECASE)`, or `none`. -/
def search2Group : List Char → Option (List Char)
  | [] => none
  | c :: rest =>
    match lastIsReturnedLE (c :: rest)
        (((c :: rest).takeWhile (fun ch => ch != Char.ofNat 46)).length) with
    | some q => some ((c :: rest).take q)
    | none => search2Group rest

/-- Greedily consume leading `"array of "` markers, case-insensitively.
Fuel-based like `splitSepGo`. -/
def eatArrayOfGo : Nat → List Char → List Char
  | 0, cs => cs
  | fuel + 1, cs =>
    if ciIsPrefixOf ("array of ".data) cs then
      eatArrayOfGo fuel (cs.drop 9)
    else
      cs

/-- A regex word character (`\w`), restricted to ASCII as in the source's
inputs. -/
def isWordChar (c : Char) : Bool :=
  c.isAlphanum || c == Char.ofNat 95

/-- The captured group of `re.search(r"(?:array of )+(\w*)", s, re.IGNORECASE)`,
or `none` when there is no match. -/
def arrayMatchGroup : List Char → Option (List Char)
  | [] => none
  | c :: rest =>
    if ciIsPrefixOf ("array of ".data) (c :: rest) then
      some ((eatArrayOfGo rest.length ((c :: rest).drop 9)).takeWhile isWordChar)
    else
      arrayMatchGroup rest

/-- Mirror of `extract_return_type` without the registry write: it returns
the list that the source assigns to `items[curr_type][curr_name]["returns"]`. -/
def extract_return_type (ret_str : String) : List String :=
  match arrayMatchGroup ret_str.data with
  | some w =>
    (clean_tg_type ⟨w⟩).map (fun r => "Array of " ++ r)
  | none =>
    (pyWords ret_str).flatMap (fun ret =>
      if (ret.data.headD (Char.ofNat 32)).isUpper then
        clean_tg_type (pyRemovePunct ret)
      else
        [])

/-- Mirror of `get_method_return_type` without the registry write: given the
accumulated description items it returns the new value of `returns`, or
`none` when neither pattern matches and `returns` is left untouched. -/
def get_method_return_type (description_items : List String) : Option (List String) :=
  let description := pyJoin "\n" description_items
  match search1Group description.data with
  | some g => some (extract_return_type (pyStrip ⟨g⟩))
  | none =>
    match search2Group description.data with
    | some g => some (extract_return_type (pyStrip ⟨g⟩))
    | none => none

example :
    get_method_return_type ["On success, the sent Message is returned."] =
      some ["Message"] := by decide
example :
    get_method_return_type ["Returns an Array of ChatMember objects."] =
      some ["Array of ChatMember"] := by decide
example : get_method_return_type ["no pattern here"] = none := by decide
example :
    get_method_return_type ["The ChatFullInfo object is returned."] =
      some ["The", "ChatFullInfo"] := by decide

example : clean_tg_type "Array of A or B" = ["Array of A", "Array of B"] := by decide
example : clean_tg_type "Int" = ["Integer"] := by decide
example : clean_tg_type "True" = ["Boolean"] := by decide
example : clean_tg_type "Float number" = ["Float"] := by decide
example : stripArray "Array of Array of X" = "X" := by decide
example : pyWords " a bc  d " = ["a", "bc", "d"] := by decide
example : pyReplace "a b c b" "b" "z" = "a z c z" := by decide
example : pyRemovePunct "Mes,sage." = "Message" := by decide

/-! ## The markup model and the text normalizer (`clean_tg_description`)

A rendered markup fragment is modelled as a sequence of inline pieces: plain
text, emoji images (carrying their alt text), line breaks, and anchors
(carrying their visible label and `href`).  This is exactly the structure
`clean_tg_description` inspects through BeautifulSoup: it replaces images by
their alt text, `<br>` by a newline, rewrites "see-also" anchors (label
containing the `»` glyph), takes the rendered text, and normalizes
whitespace, ellipsis, dashes and smart quotes. -/

inductive Inline where
  | text (s : String)
  | img (alt : String)
  | br
  | a (label : String) (href : String)
deriving DecidableEq

/-- `tag.get_text()` of an unmodified fragment: images and line breaks
contribute no text, anchors contribute their label. -/
def fragText (frag : List Inline) : String :=
  pyJoin "" (frag.map (fun i =>
    match i with
    | .text s => s
    | .img _ => ""
    | .br => ""
    | .a label _ => label))

/-- Resolve a page-relative or domain-relative link against the base URLs. -/
def resolveLink (link : String) : String :=
  if pyStartsWith link "#" then API_URL ++ link
  else if pyStartsWith link "/" then ROOT_URL ++ link
  else link

/-- The text contributed by one inline piece after the replacements
performed by `clean_tg_description`. -/
def inlineToText (i : Inline) : String :=
  match i with
  | .text s => s
  | .img alt => alt
  | .br => "\n"
  | .a label href =>
    if pyContainsChar label '»' then
      pyReplace label " »" (": " ++ resolveLink href)
    else
      label

/-- Collapse every whitespace run to a single space,
Python `re.sub(r"\s+", " ", text)`.  The boolean records whether the
previous character belonged to a whitespace run. -/
def collapseWsGo : Bool → List Char → List Char
  | _, [] => []
  | prevWs, c :: rest =>
    if c.isWhitespace then
      if prevWs then collapseWsGo true rest
      else Char.ofNat 32 :: collapseWsGo true rest
    else
      c :: collapseWsGo false rest

def clean_tg_description (t : List Inline) : String :=
  let text := pyJoin "" (t.map inlineToText)
  let text : String := ⟨collapseWsGo false text.data⟩
  let text := pyReplace text "…" "..."
  let text := pyReplace text "–" "-"
  let text := pyReplace text "—" "-"
  let text := pyReplace text "”" "\""
  pyReplace text "“" "\""

example :
    clean_tg_description
      [.text "a  b", .br, .img "😀", .text " c"] = "a b 😀 c" := by decide
example :
    clean_tg_description [.a "more »" "#info", .text " x"] =
      "more: https://core.telegram.org/bots/api#info x" := by decide

/-! ## The data model: fields, entities, the registry

Entities are Python dictionaries in the source; optional keys are modelled
with `Option` (a key that was never written is `none`).  The two
registries are association lists in insertion order, exactly like Python
dictionaries. -/

structure Field where
  name : String
  types : List String
  required : Bool
  description : String
deriving DecidableEq

structure Entity where
  name : String
  href : Option String := none
  description : Option (List String) := none
  fields : Option (List Field) := none
  subtypes : Option (List String) := none
  subtype_of : Option (List String) := none
  returns : Option (List String) := none
deriving DecidableEq

/-- The two entity categories, the values of the source's `curr_type`. -/
inductive Cat where
  | methods
  | types
deriving DecidableEq

def catKey : Cat → String
  | .methods => "methods"
  | .types => "types"

abbrev AList := List (String × Entity)

/-- First-match association-list lookup, Python `d[k]` / `d.get(k)`. -/
def alookup : AList → String → Option Entity
  | [], _ => none
  | (k', v) :: rest, k => if k' = k then some v else alookup rest k

/-- Python `k in d`. -/
def containsKey (l : AList) (k : String) : Bool :=
  l.any (fun p => p.1 = k)

/-- Python `d[k] = v`: replace the value in place when the key exists
(keeping its position), otherwise append a new entry. -/
def aset (l : AList) (k : String) (v : Entity) : AList :=
  if containsKey l k then
    l.map (fun p => if p.1 = k then (p.1, v) else p)
  else
    l ++ [(k, v)]

/-- Update the value stored at a key in place (no-op when the key is
absent). -/
def amodify (l : AList) (k : String) (f : Entity → Entity) : AList :=
  l.map (fun p => if p.1 = k then (p.1, f p.2) else p)

structure Registry where
  methods : AList := []
  types : AList := []
deriving DecidableEq

def Registry.catMap (r : Registry) : Cat → AList
  | .methods => r.methods
  | .types => r.types

def Registry.withCatMap (r : Registry) : Cat → AList → Registry
  | .methods, m => { r with methods := m }
  | .types, m => { r with types := m }

/-! ## The document model and the entity segmenter (`retrieve_api_info`)

A document is the sequence of top-level children of the content `div`.
The node kinds the source distinguishes by tag name are modelled as an
inductive type; `other` stands for any node of a different tag (the source
ignores those, but still re-runs the return-type inferrer on them).
An `h4` carries its anchor's `name` and `href` attributes and its visible
text (`x.find("a")` is assumed to succeed, as it does on the scraped page).

Failures that abort the Python process are modelled with `Except`:

* `badRow` is the diagnostic-plus-`exit(1)` of `get_fields` on a table row
  with an unexpected column count (the source also prints the raw row
  object; the error value carries the row itself);
* `keyError` is an uncaught `KeyError` (the `description` access in
  `get_subtypes`);
* `indexError` is the uncaught `IndexError` of `x.text[0]` on an `h4`
  without visible text. -/

inductive Node where
  | h3
  | hr
  | h4 (anchorName : Option String) (anchorHref : Option String) (text : String)
  | p (frag : List Inline)
  | table (rows : List (List (List Inline)))
  | ul (lis : List (List Inline))
  | other
deriving DecidableEq

inductive RunError where
  | badRow (cat : Cat) (name : String) (row : List (List Inline))
  | keyError (key : String)
  | indexError
deriving DecidableEq

/-- One table row turned into a field record; `none` when the column count
does not match the open entity's category (3 for types, 4 for methods). -/
def rowField (curr_type : Cat) (row : List (List Inline)) : Option Field :=
  match curr_type, row with
  | .types, [c0, c1, c2] =>
    let desc := clean_tg_description c2
    some
      { name := fragText c0
        types := clean_tg_type (fragText c1)
        required := !(pyStartsWith desc "Optional. ")
        description := desc }
  | .methods, [c0, c1, c2, c3] =>
    some
      { name := fragText c0
        types := clean_tg_type (fragText c1)
        required := fragText c2 == "Yes"
        description := clean_tg_description c3 }
  | _, _ => none

/-- The row loop of `get_fields`: collect the field records in row order,
aborting at the first row with an unexpected column count. -/
def get_fieldsRows (curr_name : String) (curr_type : Cat) :
    List (List (List Inline)) → Except RunError (List Field)
  | [] => .ok []
  | row :: rest =>
    match rowField curr_type row with
    | some f => (get_fieldsRows curr_name curr_type rest).map (fun fs => f :: fs)
    | none => .error (.badRow curr_type curr_name row)

/-- `get_fields`: extract the rows and overwrite the entity's `fields`. -/
def get_fields (curr_name : String) (curr_type : Cat)
    (rows : List (List (List Inline))) (items : Registry) :
    Except RunError Registry :=
  (get_fieldsRows curr_name curr_type rows).map (fun fields =>
    items.withCatMap curr_type
      (amodify (items.catMap curr_type) curr_name
        (fun e => { e with fields := some fields })))

/-- `get_subtypes`: for `"InputFile"` return immediately; otherwise extract
the list items, for a type entity overwrite `subtypes`, and append the
bullet-prefixed items to the entity's `description` — a `KeyError` when the
`description` key was never created. -/
def get_subtypes (curr_name : String) (curr_type : Cat)
    (lis : List (List Inline)) (items : Registry) :
    Except RunError Registry :=
  if curr_name = "InputFile" then .ok items
  else
    let list_contents := lis.map clean_tg_description
    let items :=
      if curr_type = Cat.types then
        items.withCatMap .types
          (amodify (items.catMap .types) curr_name
            (fun e => { e with subtypes := some list_contents }))
      else items
    match alookup (items.catMap curr_type) curr_name with
    | none => .error (.keyError "description")
    | some e =>
      match e.description with
      | none => .error (.keyError "description")
      | some d =>
        .ok (items.withCatMap curr_type
          (amodify (items.catMap curr_type) curr_name
            (fun e' => { e' with
              description := some (d ++ list_contents.map (fun s => "- " ++ s)) })))

/-- `get_type_and_name`: classify the entity from the first character of the
header text (crashing like `x.text[0]` on empty text), create a fresh record
under its name, and record the absolute `href` when the anchor has one. -/
def get_type_and_name (text : String) (anchorHref : Option String)
    (items : Registry) : Except RunError (Registry × String × Cat) :=
  match text.data with
  | [] => .error .indexError
  | c :: _ =>
    let curr_type := if c.isUpper then Cat.types else Cat.methods
    let curr_name := text
    let ent : Entity := { name := curr_name }
    let ent :=
      match anchorHref with
      | some href => if href = "" then ent else { ent with href := some (API_URL ++ href) }
      | none => ent
    .ok (items.withCatMap curr_type (aset (items.catMap curr_type) curr_name ent),
      curr_name, curr_type)

/-- The traversal context: the registry built so far plus the open entity
(`curr_type`, `curr_name`), `none` when the context was reset. -/
structure SegState where
  reg : Registry
  curr : Option (Cat × String)
deriving DecidableEq

/-- The trailing per-iteration step of the segmenter loop: when the open
entity is a method with a non-empty `description`, recompute and overwrite
its `returns` from the accumulated description. -/
def returnsRefresh (st : SegState) : SegState :=
  match st.curr with
  | some (Cat.methods, n) =>
    (match alookup st.reg.methods n with
     | some e =>
       (match e.description with
        | some ds =>
          if ds.isEmpty then st
          else
            (match get_method_return_type ds with
             | some rets =>
               { st with reg := { st.reg with
                   methods := amodify st.reg.methods n
                     (fun e' => { e' with returns := some rets }) } }
             | none => st)
        | none => st)
     | none => st)
  | _ => st

/-- Whether an `h4` anchor `name` attribute marks a sub-anchor
(Python `name and "-" in name`). -/
def dashAnchor : Option String → Bool
  | some n => !(n = "") && pyContainsChar n '-'
  | none => false

/-- One iteration of the segmenter loop of `retrieve_api_info`. -/
def segStep (st : SegState) (x : Node) : Except RunError SegState :=
  match x with
  | .h3 => .ok { st with curr := none }
  | .hr => .ok { st with curr := none }
  | .h4 aname ahref text =>
    if dashAnchor aname then .ok { st with curr := none }
    else
      (get_type_and_name text ahref st.reg).map (fun out =>
        returnsRefresh { reg := out.1, curr := some (out.2.2, out.2.1) })
  | _ =>
    match st.curr with
    | none => .ok st
    | some (c, n) =>
      match x with
      | .p frag =>
        let reg' := st.reg.withCatMap c
          (amodify (st.reg.catMap c) n
            (fun e => { e with
              description := some (e.description.getD [] ++ [clean_tg_description frag]) }))
        .ok (returnsRefresh { st with reg := reg' })
      | .table rows =>
        (get_fields n c rows st.reg).map (fun reg' =>
          returnsRefresh { st with reg := reg' })
      | .ul lis =>
        (get_subtypes n c lis st.reg).map (fun reg' =>
          returnsRefresh { st with reg := reg' })
      | _ => .ok (returnsRefresh st)

/-- `retrieve_api_info`, as a function of the document's top-level node
sequence: fold the segmenter step over the nodes and return the registry. -/
def retrieve_api_info (doc : List Node) : Except RunError Registry :=
  (List.foldlM segStep { reg := {}, curr := none } doc).map (fun st => st.reg)

/-! ## The schema validator (`verify_type_parameters`, `verify_method_parameters`)

Both passes are folds that accumulate the printed defect lines and the
`issue_found` flag; the types pass additionally threads the registry,
because it writes the `subtype_of` back-references in place.  The passes
are faithful to the source's control flow, including each `continue`, the
placement of the field-type check outside the inner loop of the types pass
(only the last stripped union member of each field is checked), and the
local variable `t` of the types pass starting out as the entity key.
`print` output is modelled as the list of printed lines. -/

/-- Python truthiness of `values.get("href")`: present and non-empty. -/
def truthyStr : Option String → Bool
  | some s => !(s = "")
  | none => false

/-- `setdefault("subtype_of", []).append(k)` on the type entity `st`. -/
def addSubtypeOf (r : Registry) (st k : String) : Registry :=
  { r with types :=
      (amodify r.types st
        (fun e => { e with subtype_of := some (e.subtype_of.getD [] ++ [k]) })) }

/-- One iteration of the subtype loop of the types pass. -/
def vtpSubStep (k : String) (acc : List String × Registry × Bool) (st : String) :
    List String × Registry × Bool :=
  if containsKey acc.2.1.types st then
    (acc.1, addSubtypeOf acc.2.1 st k, acc.2.2)
  else
    (acc.1 ++ ["TYPE " ++ k ++ " USES INVALID SUBTYPE " ++ st], acc.2.1, true)

/-- One iteration of the field loop of the types pass.  The middle
component is the loop variable `t`, which survives between iterations; the
inner `for`/`while` reduces it to the last union member of the field,
stripped of its array markers — the check then only sees that value. -/
def vtpParamStep (r : Registry) (acc : List String × String × Bool) (param : Field) :
    List String × String × Bool :=
  let t := param.types.foldl (fun _ x => stripArray x) acc.2.1
  if !(containsKey r.types t) && !(TG_CORE_TYPES.contains t) then
    (acc.1 ++ ["UNKNOWN FIELD TYPE " ++ t], t, true)
  else
    (acc.1, t, acc.2.2)

/-- The `if len(fields) == 0` part of the types-pass loop body: the
missing-fields/subtypes defect and the subtype back-reference loop. -/
def vtpSubPhase (r : Registry) (k : String) (v : Entity) : List String × Registry × Bool :=
  if (v.fields.getD []).length = 0 then
    if (v.subtypes.getD []).isEmpty && !(APPROVED_NO_SUBTYPES.contains k) then
      (["TYPE " ++ k ++ " has no fields or subtypes, and is not approved"], r, true)
    else
      (v.subtypes.getD []).foldl (vtpSubStep k) ([], r, false)
  else ([], r, false)

/-- The body of the types-pass loop for one entity key. -/
def vtpStep (r : Registry) (k : String) : List String × Registry × Bool :=
  match alookup r.types k with
  | none => ([], r, false)
  | some v =>
    if !(truthyStr v.href) then ([k ++ " has no link!"], r, true)
    else
      let out1 := vtpSubPhase r k v
      let out2 := (v.fields.getD []).foldl (vtpParamStep out1.2.1) ([], k, false)
      (out1.1 ++ out2.1, out1.2.1, out1.2.2 || out2.2.2)

def vtpFoldStep (acc : List String × Registry × Bool) (k : String) :
    List String × Registry × Bool :=
  let out := vtpStep acc.2.1 k
  (acc.1 ++ out.1, out.2.1, acc.2.2 || out.2.2)

/-- `verify_type_parameters`: iterate the type entities in insertion order;
returns the printed lines, the registry with the `subtype_of`
back-references added, and `issue_found`. -/
def verify_type_parameters (items : Registry) : List String × Registry × Bool :=
  (items.types.map Prod.fst).foldl vtpFoldStep ([], items, false)

/-- Python `repr` of a list of strings, as printed by the multiple-return
warning (0x27 is the single-quote character). -/
def pyReprStrList (l : List String) : String :=
  "[" ++
    pyJoin ", " (l.map (fun s =>
      String.singleton (Char.ofNat 39) ++ s ++ String.singleton (Char.ofNat 39))) ++
    "]"

/-- One iteration of the parameter-type loop of the methods pass (the check
sits inside the loop: every union member is checked). -/
def vmpParamTypeStep (tyl : AList) (acc : List String × Bool) (t : String) :
    List String × Bool :=
  let t := stripArray t
  if !(containsKey tyl t) && !(TG_CORE_TYPES.contains t) then
    (acc.1 ++ ["UNKNOWN PARAM TYPE " ++ t], true)
  else acc

/-- One iteration of the return-type loop of the methods pass. -/
def vmpRetStep (tyl : AList) (acc : List String × Bool) (ret : String) :
    List String × Bool :=
  let r := stripArray ret
  if !(containsKey tyl r) && !(TG_CORE_TYPES.contains r) then
    (acc.1 ++ ["UNKNOWN RETURN TYPE " ++ r], true)
  else acc

/-- The body of the methods-pass loop for one method entry. -/
def vmpEntity (tyl : AList) (k : String) (v : Entity) : List String × Bool :=
  if !(truthyStr v.href) then ([k ++ " has no link!"], true)
  else if (v.returns.getD []).isEmpty then ([k ++ " has no return types!"], true)
  else
    let warn :=
      if (v.returns.getD []).length > 1 then
        [k ++ " has multiple return types: " ++ pyReprStrList (v.returns.getD [])]
      else []
    let acc1 := (v.fields.getD []).foldl
      (fun acc param => param.types.foldl (vmpParamTypeStep tyl) acc) (warn, false)
    (v.returns.getD []).foldl (vmpRetStep tyl) acc1

def vmpFoldStep (tyl : AList) (acc : List String × Bool) (kv : String × Entity) :
    List String × Bool :=
  let out := vmpEntity tyl kv.1 kv.2
  (acc.1 ++ out.1, acc.2 || out.2)

/-- `verify_method_parameters`: iterate the method entities in insertion
order; returns the printed lines and `issue_found`.  The registry is not
modified by this pass. -/
def verify_method_parameters (items : Registry) : List String × Bool :=
  items.methods.foldl (vmpFoldStep items.types) ([], false)

/-! ## Serialization and the program entry point (`__main__`) -/

def jsonEscapeChar (c : Char) : String :=
  if c = Char.ofNat 34 then "\\\""
  else if c = Char.ofNat 92 then "\\\\"
  else if c = Char.ofNat 10 then "\\n"
  else String.singleton c

def jsonStr (s : String) : String :=
  "\"" ++ pyJoin "" (s.data.map jsonEscapeChar) ++ "\""

def jsonStrList (l : List String) : String :=
  "[" ++ pyJoin ", " (l.map jsonStr) ++ "]"

def serializeOptList (name : String) (v : Option (List String)) : List String :=
  match v with
  | none => []
  | some l => [jsonStr name ++ ": " ++ jsonStrList l]

def serializeField (f : Field) : String :=
  "\x7b" ++
    pyJoin ", "
      [jsonStr "name" ++ ": " ++ jsonStr f.name,
        jsonStr "types" ++ ": " ++ jsonStrList f.types,
        jsonStr "required" ++ ": " ++ (if f.required then "true" else "false"),
        jsonStr "description" ++ ": " ++ jsonStr f.description] ++
    "\x7d"

def serializeEntity (e : Entity) : String :=
  "\x7b" ++
    pyJoin ", "
      ([jsonStr "name" ++ ": " ++ jsonStr e.name] ++
        (match e.href with
          | none => []
          | some h => [jsonStr "href" ++ ": " ++ jsonStr h]) ++
        serializeOptList "description" e.description ++
        (match e.fields with
          | none => []
          | some fs =>
            [jsonStr "fields" ++ ": [" ++ pyJoin ", " (fs.map serializeField) ++ "]"]) ++
        serializeOptList "subtypes" e.subtypes ++
        serializeOptList "subtype_of" e.subtype_of ++
        serializeOptList "returns" e.returns) ++
    "\x7d"

def serializeAList (l : AList) : String :=
  "\x7b" ++
    pyJoin ", " (l.map (fun kv => jsonStr kv.1 ++ ": " ++ serializeEntity kv.2)) ++
    "\x7d"

/-- Modelled from the spec: the output boundary serializes the registry as
a nested key-value structure with the two top-level keys (the source
delegates the byte layout to the external `json` library, which is outside
`src/`).  Keys follow the registries' insertion order; entity keys are
emitted in a fixed order rather than dictionary insertion order — every
claim about the artifact only needs the output to be a function of the
registry value. -/
def serializeRegistry (items : Registry) : String :=
  "\x7b" ++ jsonStr "methods" ++ ": " ++ serializeAList items.methods ++ ", " ++
    jsonStr "types" ++ ": " ++ serializeAList items.types ++ "\x7d"

/-- The observable outcome of one run: the lines printed to standard
output, the process exit code, and the artifact written to `api.json`
(`none` when the file is never written). -/
structure RunResult where
  output : List String
  exitCode : Nat
  artifact : Option String
deriving DecidableEq

def failMsg : String := "Failed to validate schema. View logs above for more information."

/-- The diagnostic printed by `get_fields` before `exit(1)` (the source
also prints the raw row object; its rendering is markup-library detail and
carried in the error value instead). -/
def badRowPrints (c : Cat) (n : String) (row : List (List Inline)) : List String :=
  ["An unexpected state has occurred!",
    "Type: " ++ catKey c,
    "Name: " ++ n,
    "Number of children: " ++ toString row.length]

/-- The `__main__` block: extract, validate with the short-circuiting
`or`, and only on success write the artifact.  An uncaught exception
(KeyError/IndexError) terminates the process with exit code 1 and no
artifact. -/
def main_program (doc : List Node) : RunResult :=
  match retrieve_api_info doc with
  | .error (.badRow c n row) =>
    { output := badRowPrints c n row, exitCode := 1, artifact := none }
  | .error _ => { output := [], exitCode := 1, artifact := none }
  | .ok items =>
    let tOut := verify_type_parameters items
    if tOut.2.2 then
      { output := tOut.1 ++ [failMsg], exitCode := 1, artifact := none }
    else
      let mOut := verify_method_parameters tOut.2.1
      if mOut.2 then
        { output := tOut.1 ++ mOut.1 ++ [failMsg], exitCode := 1, artifact := none }
      else
        { output := tOut.1 ++ mOut.1, exitCode := 0,
          artifact := some (serializeRegistry tOut.2.1) }

/-! ## General lemmas about the association-list registry -/

theorem amodify_cons (k' : String) (v : Entity) (rest : AList) (k : String)
    (f : Entity → Entity) :
    amodify ((k', v) :: rest) k f =
      (if k' = k then (k', f v) else (k', v)) :: amodify rest k f := by
  simp only [amodify, List.map_cons]

theorem alookup_amodify (l : AList) (k j : String) (f : Entity → Entity) :
    alookup (amodify l k f) j =
      if k = j then (alookup l j).map f else alookup l j := by
  induction l with
  | nil =>
    simp [alookup, amodify]
  | cons p rest ih =>
    obtain ⟨k', v⟩ := p
    rw [amodify_cons]
    by_cases hk : k' = k
    · subst hk
      rw [if_pos rfl]
      by_cases hj : k' = j
      · subst hj
        simp [alookup]
      · simp [alookup, hj, ih]
    · rw [if_neg hk]
      by_cases hj : k' = j
      · subst hj
        simp [alookup, if_neg (fun h : k = k' => hk h.symm)]
      · simp [alookup, hj, ih]

theorem keys_amodify (l : AList) (k : String) (f : Entity → Entity) :
    (amodify l k f).map Prod.fst = l.map Prod.fst := by
  induction l with
  | nil => rfl
  | cons p rest ih =>
    obtain ⟨k', v⟩ := p
    rw [amodify_cons]
    by_cases hk : k' = k
    · rw [if_pos hk]
      simp [ih]
    · rw [if_neg hk]
      simp [ih]

theorem containsKey_iff_mem (l : AList) (k : String) :
    containsKey l k = true ↔ k ∈ l.map Prod.fst := by
  induction l with
  | nil => simp [containsKey]
  | cons p rest ih =>
    obtain ⟨k', v⟩ := p
    simp only [containsKey, List.any_cons, List.map_cons, List.mem_cons,
      Bool.or_eq_true, decide_eq_true_eq] at *
    constructor
    · rintro (h | h)
      · exact Or.inl h.symm
      · exact Or.inr (ih.mp h)
    · rintro (h | h)
      · exact Or.inl h.symm
      · exact Or.inr (ih.mpr h)

theorem containsKey_congr {l l' : AList} (h : l.map Prod.fst = l'.map Prod.fst)
    (k : String) : containsKey l k = containsKey l' k := by
  cases hc : containsKey l' k with
  | true => exact (containsKey_iff_mem l k).mpr (h ▸ (containsKey_iff_mem l' k).mp hc)
  | false =>
    cases hc' : containsKey l k with
    | false => rfl
    | true =>
      exact absurd ((containsKey_iff_mem l' k).mpr
        (h ▸ (containsKey_iff_mem l k).mp hc')) (by simp [hc])

theorem alookup_isSome_of_containsKey {l : AList} {k : String}
    (h : containsKey l k = true) : ∃ v, alookup l k = some v := by
  induction l with
  | nil => simp [containsKey] at h
  | cons p rest ih =>
    obtain ⟨k', v⟩ := p
    by_cases hk : k' = k
    · exact ⟨v, by simp [alookup, hk]⟩
    · simp [containsKey, hk] at h
      obtain ⟨w, hw⟩ := ih (by simpa [containsKey] using h)
      exact ⟨w, by simp [alookup, hk, hw]⟩

theorem mem_keys_of_alookup {l : AList} {k : String} {v : Entity}
    (h : alookup l k = some v) : k ∈ l.map Prod.fst := by
  induction l with
  | nil => simp [alookup] at h
  | cons p rest ih =>
    obtain ⟨k', v'⟩ := p
    by_cases hk : k' = k
    · simp [hk]
    · simp only [alookup, if_neg hk] at h
      simp only [List.map_cons, List.mem_cons]
      exact Or.inr (ih h)

/-! ## Lemmas about `Except` and `List.foldlM` over the segmenter -/

theorem exceptBind_ok {α β ε : Type} (a : α) (f : α → Except ε β) :
    (Except.ok a : Except ε α) >>= f = f a := rfl

theorem exceptBind_error {α β ε : Type} (e : ε) (f : α → Except ε β) :
    (Except.error e : Except ε α) >>= f = .error e := rfl

theorem segRun_append (l1 l2 : List Node) (s : SegState) :
    List.foldlM segStep s (l1 ++ l2) =
      (List.foldlM segStep s l1) >>= (fun s' => List.foldlM segStep s' l2) := by
  induction l1 generalizing s with
  | nil => simp [List.foldlM]
  | cons x l1 ih =>
    simp only [List.cons_append, List.foldlM_cons]
    cases hx : segStep s x with
    | ok s' => simp [exceptBind_ok, ih]
    | error e => simp [exceptBind_error]

/-! ## How the types pass evolves the registry

The types pass only ever rewrites `subtype_of` sequences, and only by
appending.  `Evolves r r'` captures everything the proofs need about the
registry transformations the pass performs: methods untouched, type keys
preserved, each type entity's href/fields/subtypes preserved, and
`subtype_of` memberships preserved. -/

/-- The components of a type entity that the types pass reads but never
writes. -/
def coreView (e : Entity) :
    Option String × Option (List Field) × Option (List String) :=
  (e.href, e.fields, e.subtypes)

structure Evolves (r r' : Registry) : Prop where
  methods_eq : r'.methods = r.methods
  keys_eq : r'.types.map Prod.fst = r.types.map Prod.fst
  core_eq : ∀ j, (alookup r'.types j).map coreView = (alookup r.types j).map coreView
  sub_mono : ∀ j x e, alookup r.types j = some e → x ∈ e.subtype_of.getD [] →
    ∃ e', alookup r'.types j = some e' ∧ x ∈ e'.subtype_of.getD []

theorem Evolves.refl (r : Registry) : Evolves r r :=
  ⟨Eq.refl _, Eq.refl _, fun _ => Eq.refl _, fun _ _ e h hx => ⟨e, h, hx⟩⟩

theorem Evolves.trans {r r' r'' : Registry}
    (h1 : Evolves r r') (h2 : Evolves r' r'') : Evolves r r'' := by
  refine ⟨h2.methods_eq.trans h1.methods_eq, h2.keys_eq.trans h1.keys_eq,
    fun j => (h2.core_eq j).trans (h1.core_eq j), fun j x e h hx => ?_⟩
  obtain ⟨e', h', hx'⟩ := h1.sub_mono j x e h hx
  exact h2.sub_mono j x e' h' hx'

theorem evolves_addSubtypeOf (r : Registry) (st k : String) :
    Evolves r (addSubtypeOf r st k) := by
  have hmod : (addSubtypeOf r st k).types =
      amodify r.types st
        (fun e => { e with subtype_of := some (e.subtype_of.getD [] ++ [k]) }) := rfl
  have hme : (addSubtypeOf r st k).methods = r.methods := rfl
  refine ⟨hme, ?_, fun j => ?_, fun j x e h hx => ?_⟩
  · rw [hmod, keys_amodify]
  · rw [hmod, alookup_amodify]
    by_cases hj : st = j
    · subst hj
      rw [if_pos (Eq.refl _)]
      cases alookup r.types st <;> simp [coreView]
    · rw [if_neg hj]
  · rw [hmod, alookup_amodify]
    by_cases hj : st = j
    · subst hj
      rw [if_pos (Eq.refl _), h]
      exact ⟨_, Eq.refl _, by simp [hx]⟩
    · rw [if_neg hj]
      exact ⟨e, h, hx⟩

theorem evolves_vtpSubStep (k : String) (acc : List String × Registry × Bool)
    (st : String) : Evolves acc.2.1 (vtpSubStep k acc st).2.1 := by
  unfold vtpSubStep
  by_cases h : containsKey acc.2.1.types st = true
  · rw [if_pos h]
    exact evolves_addSubtypeOf _ _ _
  · rw [if_neg h]
    exact Evolves.refl _

theorem evolves_subfold (k : String) (sts : List String) :
    ∀ acc : List String × Registry × Bool,
      Evolves acc.2.1 ((sts.foldl (vtpSubStep k) acc).2.1) := by
  induction sts with
  | nil => exact fun acc => Evolves.refl _
  | cons st sts ih =>
    intro acc
    simp only [List.foldl_cons]
    exact (evolves_vtpSubStep k acc st).trans (ih _)

theorem evolves_vtpSubPhase (r : Registry) (k : String) (v : Entity) :
    Evolves r (vtpSubPhase r k v).2.1 := by
  unfold vtpSubPhase
  split
  · split
    · exact Evolves.refl _
    · exact evolves_subfold k _ ([], r, false)
  · exact Evolves.refl _

theorem evolves_vtpStep (r : Registry) (k : String) :
    Evolves r (vtpStep r k).2.1 := by
  unfold vtpStep
  cases h : alookup r.types k with
  | none => exact Evolves.refl _
  | some v =>
    dsimp only
    by_cases hh : (!truthyStr v.href) = true
    · rw [if_pos hh]
      exact Evolves.refl _
    · rw [if_neg hh]
      exact evolves_vtpSubPhase r k v

theorem evolves_vtpFold (ks : List String) :
    ∀ acc : List String × Registry × Bool,
      Evolves acc.2.1 ((ks.foldl vtpFoldStep acc).2.1) := by
  induction ks with
  | nil => exact fun acc => Evolves.refl _
  | cons k ks ih =>
    intro acc
    simp only [List.foldl_cons]
    refine Evolves.trans ?_ (ih (vtpFoldStep acc k))
    show Evolves acc.2.1 (vtpStep acc.2.1 k).2.1
    exact evolves_vtpStep _ _

theorem evolves_verify_type_parameters (items : Registry) :
    Evolves items (verify_type_parameters items).2.1 :=
  evolves_vtpFold (items.types.map Prod.fst) ([], items, false)

/-! ## The printed lines and the `issue_found` flag of the passes

The types pass reads the threaded registry only through its key set and
the entities' href/fields/subtypes, all of which are invariant along the
pass; its printed lines and `issue_found` contributions are therefore the
same as if every entity were checked against the original registry.  This
yields a per-entity decomposition of both validator passes. -/

theorem subfold_out_congr (k : String) :
    ∀ (sts : List String) (r1 r2 : Registry) (p : List String) (i : Bool),
      r1.types.map Prod.fst = r2.types.map Prod.fst →
      ((sts.foldl (vtpSubStep k) (p, r1, i)).1 =
        (sts.foldl (vtpSubStep k) (p, r2, i)).1) ∧
      ((sts.foldl (vtpSubStep k) (p, r1, i)).2.2 =
        (sts.foldl (vtpSubStep k) (p, r2, i)).2.2) := by
  intro sts
  induction sts with
  | nil => exact fun r1 r2 p i _ => ⟨rfl, rfl⟩
  | cons st sts ih =>
    intro r1 r2 p i hk
    have hc : containsKey r1.types st = containsKey r2.types st :=
      containsKey_congr hk st
    simp only [List.foldl_cons, vtpSubStep]
    by_cases h1 : containsKey r1.types st = true
    · have h2 : containsKey r2.types st = true := hc ▸ h1
      rw [if_pos h1, if_pos h2]
      refine ih _ _ p i ?_
      have e1 := (evolves_addSubtypeOf r1 st k).keys_eq
      have e2 := (evolves_addSubtypeOf r2 st k).keys_eq
      rw [e1, e2, hk]
    · have h2 : ¬ containsKey r2.types st = true := fun h => h1 (hc ▸ h)
      rw [if_neg h1, if_neg h2]
      exact ih _ _ _ _ hk

theorem paramfold_congr {r1 r2 : Registry}
    (hk : r1.types.map Prod.fst = r2.types.map Prod.fst) :
    ∀ (params : List Field) (acc : List String × String × Bool),
      params.foldl (vtpParamStep r1) acc = params.foldl (vtpParamStep r2) acc := by
  intro params
  induction params with
  | nil => exact fun _ => rfl
  | cons q params ih =>
    intro acc
    have hstep : vtpParamStep r1 acc q = vtpParamStep r2 acc q := by
      unfold vtpParamStep
      simp only [containsKey_congr hk]
    simp only [List.foldl_cons, hstep]
    exact ih _

theorem vtpSubPhase_out_congr {r1 r2 : Registry} (k : String) {v v' : Entity}
    (hk : r1.types.map Prod.fst = r2.types.map Prod.fst)
    (hf : v'.fields = v.fields) (hs : v'.subtypes = v.subtypes) :
    ((vtpSubPhase r1 k v').1 = (vtpSubPhase r2 k v).1) ∧
    ((vtpSubPhase r1 k v').2.2 = (vtpSubPhase r2 k v).2.2) := by
  unfold vtpSubPhase
  rw [hf, hs]
  by_cases h0 : (v.fields.getD []).length = 0
  · rw [if_pos h0, if_pos h0]
    by_cases h1 : ((v.subtypes.getD []).isEmpty && !(APPROVED_NO_SUBTYPES.contains k)) = true
    · rw [if_pos h1, if_pos h1]
      exact ⟨rfl, rfl⟩
    · rw [if_neg h1, if_neg h1]
      exact subfold_out_congr k _ r1 r2 [] false hk
  · rw [if_neg h0, if_neg h0]
    exact ⟨rfl, rfl⟩

theorem vtpStep_out_congr {items r : Registry} (h : Evolves items r) (k : String) :
    ((vtpStep r k).1 = (vtpStep items k).1) ∧
    ((vtpStep r k).2.2 = (vtpStep items k).2.2) := by
  have hcv := h.core_eq k
  cases hi : alookup items.types k with
  | none =>
    have hr : alookup r.types k = none := by
      rw [hi] at hcv
      cases hr' : alookup r.types k
      · rfl
      · rw [hr'] at hcv
        simp at hcv
    unfold vtpStep
    rw [hi, hr]
    exact ⟨rfl, rfl⟩
  | some v =>
    rw [hi] at hcv
    obtain ⟨v', hr, hvv⟩ : ∃ v', alookup r.types k = some v' ∧ coreView v' = coreView v := by
      cases hr' : alookup r.types k with
      | none => rw [hr'] at hcv; simp at hcv
      | some w =>
        rw [hr'] at hcv
        simp at hcv
        exact ⟨w, rfl, hcv⟩
    have hhref : v'.href = v.href := congrArg (fun t => t.1) hvv
    have hfields : v'.fields = v.fields := congrArg (fun t => t.2.1) hvv
    have hsubs : v'.subtypes = v.subtypes := congrArg (fun t => t.2.2) hvv
    unfold vtpStep
    rw [hi, hr]
    dsimp only
    rw [hhref]
    by_cases hh : (!truthyStr v.href) = true
    · rw [if_pos hh, if_pos hh]
      exact ⟨rfl, rfl⟩
    · rw [if_neg hh, if_neg hh]
      have hph := vtpSubPhase_out_congr k h.keys_eq hfields hsubs
      have hkk : (vtpSubPhase r k v').2.1.types.map Prod.fst =
          (vtpSubPhase items k v).2.1.types.map Prod.fst := by
        rw [(evolves_vtpSubPhase r k v').keys_eq,
          (evolves_vtpSubPhase items k v).keys_eq, h.keys_eq]
      have hpf := paramfold_congr hkk (v.fields.getD []) ([], k, false)
      refine ⟨?_, ?_⟩
      · show (vtpSubPhase r k v').1 ++ _ = (vtpSubPhase items k v).1 ++ _
        rw [hph.1, hfields, hpf]
      · show ((vtpSubPhase r k v').2.2 || _) = ((vtpSubPhase items k v).2.2 || _)
        rw [hph.2, hfields, hpf]

theorem vtp_fold_out (items : Registry) :
    ∀ (ks : List String) (acc : List String × Registry × Bool),
      Evolves items acc.2.1 →
      ((ks.foldl vtpFoldStep acc).1 =
        acc.1 ++ ks.flatMap (fun k => (vtpStep items k).1)) ∧
      ((ks.foldl vtpFoldStep acc).2.2 =
        (acc.2.2 || ks.any (fun k => (vtpStep items k).2.2))) := by
  intro ks
  induction ks with
  | nil => exact fun acc _ => by simp
  | cons k ks ih =>
    intro acc hacc
    have hcong := vtpStep_out_congr hacc k
    have hnext : Evolves items (vtpFoldStep acc k).2.1 := by
      refine hacc.trans ?_
      show Evolves acc.2.1 (vtpStep acc.2.1 k).2.1
      exact evolves_vtpStep _ _
    have hstep1 : (vtpFoldStep acc k).1 = acc.1 ++ (vtpStep items k).1 := by
      show acc.1 ++ (vtpStep acc.2.1 k).1 = _
      rw [hcong.1]
    have hstep2 : (vtpFoldStep acc k).2.2 = (acc.2.2 || (vtpStep items k).2.2) := by
      show (acc.2.2 || (vtpStep acc.2.1 k).2.2) = _
      rw [hcong.2]
    obtain ⟨ih1, ih2⟩ := ih (vtpFoldStep acc k) hnext
    constructor
    · simp only [List.foldl_cons, List.flatMap_cons]
      rw [ih1, hstep1, List.append_assoc]
    · simp only [List.foldl_cons, List.any_cons]
      rw [ih2, hstep2, Bool.or_assoc]

theorem verify_type_parameters_prints (items : Registry) :
    (verify_type_parameters items).1 =
      (items.types.map Prod.fst).flatMap (fun k => (vtpStep items k).1) :=
  (vtp_fold_out items _ ([], items, false) (Evolves.refl items)).1

theorem verify_type_parameters_issue (items : Registry) :
    (verify_type_parameters items).2.2 =
      (items.types.map Prod.fst).any (fun k => (vtpStep items k).2.2) :=
  (vtp_fold_out items _ ([], items, false) (Evolves.refl items)).2

theorem vmp_fold_out (tyl : AList) :
    ∀ (l : List (String × Entity)) (acc : List String × Bool),
      ((l.foldl (vmpFoldStep tyl) acc).1 =
        acc.1 ++ l.flatMap (fun kv => (vmpEntity tyl kv.1 kv.2).1)) ∧
      ((l.foldl (vmpFoldStep tyl) acc).2 =
        (acc.2 || l.any (fun kv => (vmpEntity tyl kv.1 kv.2).2))) := by
  intro l
  induction l with
  | nil => exact fun acc => by simp
  | cons kv l ih =>
    intro acc
    obtain ⟨ih1, ih2⟩ := ih (vmpFoldStep tyl acc kv)
    constructor
    · simp only [List.foldl_cons, List.flatMap_cons]
      rw [ih1]
      show (acc.1 ++ (vmpEntity tyl kv.1 kv.2).1) ++ _ = _
      rw [List.append_assoc]
    · simp only [List.foldl_cons, List.any_cons]
      rw [ih2]
      show ((acc.2 || (vmpEntity tyl kv.1 kv.2).2) || _) = _
      rw [Bool.or_assoc]

theorem verify_method_parameters_prints (items : Registry) :
    (verify_method_parameters items).1 =
      items.methods.flatMap (fun kv => (vmpEntity items.types kv.1 kv.2).1) :=
  (vmp_fold_out items.types items.methods ([], false)).1

theorem verify_method_parameters_issue (items : Registry) :
    (verify_method_parameters items).2 =
      items.methods.any (fun kv => (vmpEntity items.types kv.1 kv.2).2) :=
  (vmp_fold_out items.types items.methods ([], false)).2

/-! ## When `issue_found` stays false, every individual check passed -/

/-- When a list has a last element, a fold that ignores its accumulator
computes the image of that last element. -/
theorem foldl_const_last {α β : Type} (g : α → β) (l : List α) :
    ∀ (a : β) (tl : α), l.getLast? = some tl → l.foldl (fun _ x => g x) a = g tl := by
  induction l with
  | nil => intro a tl h; simp at h
  | cons x xs ih =>
    intro a tl h
    cases xs with
    | nil =>
      simp at h
      subst h
      rfl
    | cons y ys =>
      rw [List.getLast?_cons_cons] at h
      simp only [List.foldl_cons]
      exact ih (g x) tl h

/-- A type name resolves when it is an existing type key or a core
primitive — the negation of the validator's defect condition. -/
def resolvesIn (tyl : AList) (t : String) : Bool :=
  containsKey tyl t || TG_CORE_TYPES.contains t

theorem guard_false_resolves {tyl : AList} {t : String}
    (h : (!containsKey tyl t && !TG_CORE_TYPES.contains t) = false) :
    resolvesIn tyl t = true := by
  unfold resolvesIn
  cases h1 : containsKey tyl t with
  | true => simp [h1]
  | false =>
    cases h2 : TG_CORE_TYPES.contains t with
    | true => simp [h1, h2]
    | false =>
      rw [h1, h2] at h
      simp at h

theorem paramfold_mono (r : Registry) (params : List Field) :
    ∀ acc : List String × String × Bool, acc.2.2 = true →
      (params.foldl (vtpParamStep r) acc).2.2 = true := by
  induction params with
  | nil => exact fun acc h => h
  | cons q params ih =>
    intro acc h
    simp only [List.foldl_cons]
    refine ih _ ?_
    unfold vtpParamStep
    by_cases hg : (!containsKey r.types
          (q.types.foldl (fun _ x => stripArray x) acc.2.1) &&
        !TG_CORE_TYPES.contains
          (q.types.foldl (fun _ x => stripArray x) acc.2.1)) = true
    · rw [if_pos hg]
    · rw [if_neg hg]
      exact h

theorem paramfold_false (r : Registry) (params : List Field) :
    ∀ acc : List String × String × Bool,
      (params.foldl (vtpParamStep r) acc).2.2 = false →
      acc.2.2 = false ∧
        ∀ q ∈ params, ∀ tl, q.types.getLast? = some tl →
          resolvesIn r.types (stripArray tl) = true := by
  induction params with
  | nil => exact fun acc h => ⟨h, by simp⟩
  | cons q params ih =>
    intro acc h
    simp only [List.foldl_cons] at h
    obtain ⟨hacc', hrest⟩ := ih _ h
    have hguard : (!containsKey r.types
          (q.types.foldl (fun _ x => stripArray x) acc.2.1) &&
        !TG_CORE_TYPES.contains
          (q.types.foldl (fun _ x => stripArray x) acc.2.1)) = false := by
      by_contra hg
      rw [Bool.not_eq_false] at hg
      have : (vtpParamStep r acc q).2.2 = true := by
        unfold vtpParamStep
        rw [if_pos hg]
      rw [this] at hacc'
      exact Bool.true_eq_false.mp hacc'
    have haccf : acc.2.2 = false := by
      have : (vtpParamStep r acc q).2.2 = acc.2.2 := by
        unfold vtpParamStep
        rw [if_neg (by rw [hguard]; exact Bool.false_ne_true)]
      rw [this] at hacc'
      exact hacc'
    refine ⟨haccf, ?_⟩
    intro q' hq' tl htl
    rcases List.mem_cons.mp hq' with hq' | hq'
    · subst hq'
      rw [foldl_const_last stripArray q'.types acc.2.1 tl htl] at hguard
      exact guard_false_resolves hguard
    · exact hrest q' hq' tl htl

/-- If the types-pass body for one key reports no issue, the entity has a
link and every field's last (stripped) union member resolves. -/
theorem vtpStep_issue_false {r : Registry} {k : String} {v : Entity}
    (hv : alookup r.types k = some v) (h : (vtpStep r k).2.2 = false) :
    truthyStr v.href = true ∧
      ∀ q ∈ v.fields.getD [], ∀ tl, q.types.getLast? = some tl →
        resolvesIn r.types (stripArray tl) = true := by
  unfold vtpStep at h
  rw [hv] at h
  dsimp only at h
  by_cases hh : (!truthyStr v.href) = true
  · rw [if_pos hh] at h
    exact absurd h (by simp)
  · rw [if_neg hh] at h
    refine ⟨by simpa using hh, ?_⟩
    by_cases hf : (v.fields.getD []).length = 0
    · have : v.fields.getD [] = [] := List.eq_nil_of_length_eq_zero hf
      rw [this]
      simp
    · have hphase : vtpSubPhase r k v = ([], r, false) := by
        unfold vtpSubPhase
        rw [if_neg hf]
      rw [hphase] at h
      simp only [Bool.false_or] at h
      exact (paramfold_false r (v.fields.getD []) ([], k, false) h).2

theorem vmpRet_fold_false (tyl : AList) (l : List String) :
    ∀ acc : List String × Bool,
      (l.foldl (vmpRetStep tyl) acc).2 = false →
      acc.2 = false ∧ ∀ x ∈ l, resolvesIn tyl (stripArray x) = true := by
  induction l with
  | nil => exact fun acc h => ⟨h, by simp⟩
  | cons x l ih =>
    intro acc h
    simp only [List.foldl_cons] at h
    obtain ⟨hacc', hrest⟩ := ih _ h
    have hguard : (!containsKey tyl (stripArray x) &&
        !TG_CORE_TYPES.contains (stripArray x)) = false := by
      by_contra hg
      rw [Bool.not_eq_false] at hg
      have : (vmpRetStep tyl acc x).2 = true := by
        unfold vmpRetStep
        rw [if_pos hg]
      rw [this] at hacc'
      exact Bool.true_eq_false.mp hacc'
    have haccf : acc.2 = false := by
      have : (vmpRetStep tyl acc x).2 = acc.2 := by
        unfold vmpRetStep
        rw [if_neg (by rw [hguard]; exact Bool.false_ne_true)]
      rw [this] at hacc'
      exact hacc'
    refine ⟨haccf, ?_⟩
    intro y hy
    rcases List.mem_cons.mp hy with hy | hy
    · subst hy
      exact guard_false_resolves hguard
    · exact hrest y hy

theorem vmpParamType_fold_false (tyl : AList) (l : List String) :
    ∀ acc : List String × Bool,
      (l.foldl (vmpParamTypeStep tyl) acc).2 = false →
      acc.2 = false ∧ ∀ x ∈ l, resolvesIn tyl (stripArray x) = true := by
  induction l with
  | nil => exact fun acc h => ⟨h, by simp⟩
  | cons x l ih =>
    intro acc h
    simp only [List.foldl_cons] at h
    obtain ⟨hacc', hrest⟩ := ih _ h
    have hguard : (!containsKey tyl (stripArray x) &&
        !TG_CORE_TYPES.contains (stripArray x)) = false := by
      by_contra hg
      rw [Bool.not_eq_false] at hg
      have : (vmpParamTypeStep tyl acc x).2 = true := by
        unfold vmpParamTypeStep
        rw [if_pos hg]
      rw [this] at hacc'
      exact Bool.true_eq_false.mp hacc'
    have haccf : acc.2 = false := by
      have : (vmpParamTypeStep tyl acc x).2 = acc.2 := by
        unfold vmpParamTypeStep
        rw [if_neg (by rw [hguard]; exact Bool.false_ne_true)]
      rw [this] at hacc'
      exact hacc'
    refine ⟨haccf, ?_⟩
    intro y hy
    rcases List.mem_cons.mp hy with hy | hy
    · subst hy
      exact guard_false_resolves hguard
    · exact hrest y hy

theorem vmpFields_fold_false (tyl : AList) (fs : List Field) :
    ∀ acc : List String × Bool,
      (fs.foldl (fun acc param => param.types.foldl (vmpParamTypeStep tyl) acc) acc).2
          = false →
      acc.2 = false ∧ ∀ q ∈ fs, ∀ t ∈ q.types, resolvesIn tyl (stripArray t) = true := by
  induction fs with
  | nil => exact fun acc h => ⟨h, by simp⟩
  | cons q fs ih =>
    intro acc h
    simp only [List.foldl_cons] at h
    obtain ⟨hacc', hrest⟩ := ih _ h
    obtain ⟨haccf, hq⟩ := vmpParamType_fold_false tyl q.types acc hacc'
    refine ⟨haccf, ?_⟩
    intro q' hq' t ht
    rcases List.mem_cons.mp hq' with hq' | hq'
    · subst hq'
      exact hq t ht
    · exact hrest q' hq' t ht

/-- If the methods-pass body for one method reports no issue, the method
has a link, a non-empty `returns`, and every field union member and every
return type resolves after stripping array markers. -/
theorem vmpEntity_false {tyl : AList} {k : String} {v : Entity}
    (h : (vmpEntity tyl k v).2 = false) :
    truthyStr v.href = true ∧
      (v.returns.getD []).isEmpty = false ∧
      (∀ q ∈ v.fields.getD [], ∀ t ∈ q.types, resolvesIn tyl (stripArray t) = true) ∧
      (∀ ret ∈ v.returns.getD [], resolvesIn tyl (stripArray ret) = true) := by
  unfold vmpEntity at h
  by_cases h1 : (!truthyStr v.href) = true
  · rw [if_pos h1] at h
    exact absurd h (by simp)
  · rw [if_neg h1] at h
    by_cases h2 : (v.returns.getD []).isEmpty = true
    · rw [if_pos h2] at h
      exact absurd h (by simp)
    · rw [if_neg h2] at h
      simp only at h
      obtain ⟨hacc1, hrets⟩ := vmpRet_fold_false tyl (v.returns.getD []) _ h
      obtain ⟨_, hfields⟩ := vmpFields_fold_false tyl (v.fields.getD []) _ hacc1
      exact ⟨by simpa using h1, by simpa using h2, hfields, hrets⟩

/-! ## When the subtype back-reference is recorded -/

theorem isEmpty_false_of_mem {α : Type} {x : α} {l : List α} (h : x ∈ l) :
    l.isEmpty = false := by
  cases l
  · simp at h
  · rfl

theorem subfold_hits (k B : String) :
    ∀ (sts : List String) (acc : List String × Registry × Bool),
      B ∈ sts → containsKey acc.2.1.types B = true →
      ∃ e', alookup ((sts.foldl (vtpSubStep k) acc).2.1).types B = some e' ∧
        k ∈ e'.subtype_of.getD [] := by
  intro sts
  induction sts with
  | nil => intro acc h _; simp at h
  | cons st sts ih =>
    intro acc hmem hck
    simp only [List.foldl_cons]
    rcases List.mem_cons.mp hmem with rfl | hmem'
    · have hstep : vtpSubStep k acc B = (acc.1, addSubtypeOf acc.2.1 B k, acc.2.2) := by
        unfold vtpSubStep
        rw [if_pos hck]
      obtain ⟨v, hv⟩ := alookup_isSome_of_containsKey hck
      have hlook : ∃ e', alookup (vtpSubStep k acc B).2.1.types B = some e' ∧
          k ∈ e'.subtype_of.getD [] := by
        rw [hstep]
        have hmod : (addSubtypeOf acc.2.1 B k).types =
            amodify acc.2.1.types B
              (fun e => { e with subtype_of := some (e.subtype_of.getD [] ++ [k]) }) := rfl
        show ∃ e', alookup (addSubtypeOf acc.2.1 B k).types B = some e' ∧ _
        rw [hmod, alookup_amodify, if_pos (Eq.refl _), hv]
        exact ⟨_, rfl, by simp⟩
      obtain ⟨e', he', hk'⟩ := hlook
      exact (evolves_subfold k sts (vtpSubStep k acc B)).sub_mono B k e' he' hk'
    · refine ih (vtpSubStep k acc st) hmem' ?_
      rw [containsKey_congr (evolves_vtpSubStep k acc st).keys_eq]
      exact hck

theorem vtpStep_hits {r : Registry} {A B : String} {eA : Entity}
    (hA : alookup r.types A = some eA) (hhref : truthyStr eA.href = true)
    (hfields : eA.fields.getD [] = []) (hB : B ∈ eA.subtypes.getD [])
    (hck : containsKey r.types B = true) :
    ∃ e', alookup ((vtpStep r A).2.1).types B = some e' ∧
      A ∈ e'.subtype_of.getD [] := by
  have hphase : vtpSubPhase r A eA =
      (eA.subtypes.getD []).foldl (vtpSubStep A) ([], r, false) := by
    unfold vtpSubPhase
    rw [if_pos (by rw [hfields]; rfl),
      if_neg (by simp [isEmpty_false_of_mem hB])]
  have hmain : (vtpStep r A).2.1 = (vtpSubPhase r A eA).2.1 := by
    unfold vtpStep
    rw [hA]
    dsimp only
    rw [if_neg (by simp [hhref])]
  rw [hmain, hphase]
  exact subfold_hits A B _ ([], r, false) hB hck

theorem vtpFold_hits (A B : String) :
    ∀ (ks : List String) (acc : List String × Registry × Bool),
      ((A ∈ ks ∧
          (∃ e, alookup acc.2.1.types A = some e ∧ truthyStr e.href = true ∧
            e.fields.getD [] = [] ∧ B ∈ e.subtypes.getD []) ∧
          containsKey acc.2.1.types B = true) ∨
        (∃ e, alookup acc.2.1.types B = some e ∧ A ∈ e.subtype_of.getD [])) →
      ∃ e, alookup ((ks.foldl vtpFoldStep acc).2.1).types B = some e ∧
        A ∈ e.subtype_of.getD [] := by
  intro ks
  induction ks with
  | nil =>
    rintro acc (⟨h, _⟩ | h)
    · simp at h
    · simpa using h
  | cons k ks ih =>
    intro acc hyp
    simp only [List.foldl_cons]
    have hstep21 : (vtpFoldStep acc k).2.1 = (vtpStep acc.2.1 k).2.1 := rfl
    have hev : Evolves acc.2.1 (vtpFoldStep acc k).2.1 := by
      rw [hstep21]
      exact evolves_vtpStep _ _
    rcases hyp with ⟨hmem, hcond, hck⟩ | hback
    · rcases List.mem_cons.mp hmem with rfl | hmem'
      · obtain ⟨e, he, h1, h2, h3⟩ := hcond
        have hhit := vtpStep_hits he h1 h2 h3 hck
        refine ih (vtpFoldStep acc A) (Or.inr ?_)
        rw [hstep21]
        exact hhit
      · refine ih (vtpFoldStep acc k) (Or.inl ⟨hmem', ?_, ?_⟩)
        · obtain ⟨e, he, h1, h2, h3⟩ := hcond
          have hc := hev.core_eq A
          rw [he] at hc
          cases hr' : alookup (vtpFoldStep acc k).2.1.types A with
          | none => rw [hr'] at hc; simp at hc
          | some w =>
            rw [hr'] at hc
            simp at hc
            have hw1 : w.href = e.href := congrArg (fun t => t.1) hc
            have hw2 : w.fields = e.fields := congrArg (fun t => t.2.1) hc
            have hw3 : w.subtypes = e.subtypes := congrArg (fun t => t.2.2) hc
            exact ⟨w, rfl, by rw [hw1]; exact h1, by rw [hw2]; exact h2,
              by rw [hw3]; exact h3⟩
        · rw [containsKey_congr hev.keys_eq]
          exact hck
    · obtain ⟨e, he, hk'⟩ := hback
      exact ih (vtpFoldStep acc k) (Or.inr (hev.sub_mono B A e he hk'))

/-- The `required` derivation that C8 claims for one row: from the
normalized-description prefix in a type row, from the raw text of the
dedicated column in a method row. -/
def requiredSpec (curr_type : Cat) (row : List (List Inline)) : Bool :=
  match curr_type with
  | Cat.types =>
    !(pyStartsWith (clean_tg_description (row.getD 2 [])) "Optional. ")
  | Cat.methods => fragText (row.getD 2 []) == "Yes"

theorem rowField_required {curr_type : Cat} {row : List (List Inline)} {f : Field}
    (h : rowField curr_type row = some f) :
    f.required = requiredSpec curr_type row := by
  cases curr_type with
  | types =>
    rcases row with (_ | ⟨c0, (_ | ⟨c1, (_ | ⟨c2, (_ | ⟨c3, rest⟩)⟩)⟩)⟩) <;>
      simp [rowField, requiredSpec] at h ⊢ <;> rw [← h]
  | methods =>
    rcases row with (_ | ⟨c0, (_ | ⟨c1, (_ | ⟨c2, (_ | ⟨c3, (_ | ⟨c4, rest⟩)⟩)⟩)⟩)⟩) <;>
      simp [rowField, requiredSpec] at h ⊢ <;> rw [← h]

/-! ## The claims -/

/-- C5: the Type-String Parser maps `"Array of A or B"` to
`["Array of A", "Array of B"]`, `"Int"` to `["Integer"]`, `"True"` to
`["Boolean"]`, and `"Float number"` to `["Float"]`; it strips one optional
leading `"Array of "` marker, splits on `" or "`, `" and "`, `", "` in that
order, applies the alias table to each fragment, and reattaches the array
prefix to every result, preserving order and duplicates (the last two
conjuncts exercise the `" and "`/`", "` splits and duplicate
preservation). -/
theorem c5_clean_tg_type_examples :
    clean_tg_type "Array of A or B" = ["Array of A", "Array of B"] ∧
    clean_tg_type "Int" = ["Integer"] ∧
    clean_tg_type "True" = ["Boolean"] ∧
    clean_tg_type "Float number" = ["Float"] ∧
    clean_tg_type "A and B, C" = ["A", "B", "C"] ∧
    clean_tg_type "Array of Int or Int" = ["Array of Integer", "Array of Integer"] := by
  refine ⟨by decide, by decide, by decide, by decide, by decide, by decide⟩

/-- C4: on the exact description
`"On success, the sent Message is returned."` the Return-Type Inferrer
yields `["Message"]`, and on `"Returns an Array of ChatMember objects."`
it yields `["Array of ChatMember"]` — both as the bare inference function
and end-to-end, as the `returns` recorded for a method entity whose
accumulated description is exactly that sentence. -/
theorem c4_return_type_inferrer :
    get_method_return_type ["On success, the sent Message is returned."] =
      some ["Message"] ∧
    get_method_return_type ["Returns an Array of ChatMember objects."] =
      some ["Array of ChatMember"] ∧
    ((retrieve_api_info
        [Node.h4 none (some "#sendmessage") "sendMessage",
          Node.p [Inline.text "On success, the sent Message is returned."]]).toOption.bind
      (fun r => (alookup r.methods "sendMessage").bind (fun e => e.returns))) =
      some ["Message"] ∧
    ((retrieve_api_info
        [Node.h4 none (some "#getchatadministrators") "getChatAdministrators",
          Node.p [Inline.text "Returns an Array of ChatMember objects."]]).toOption.bind
      (fun r => (alookup r.methods "getChatAdministrators").bind (fun e => e.returns))) =
      some ["Array of ChatMember"] := by
  refine ⟨by decide, by decide, by decide, by decide⟩

/-- C9: the pipeline is a deterministic function of the input markup —
identical documents produce identical registries, identical run outcomes,
and byte-identical serialized artifacts.  In this embedding the whole run
is a pure function of the node sequence, which is exactly the source's
single-threaded, order-determined traversal. -/
theorem c9_determinism (d1 d2 : List Node) (h : d1 = d2) :
    retrieve_api_info d1 = retrieve_api_info d2 ∧
    main_program d1 = main_program d2 ∧
    (main_program d1).artifact = (main_program d2).artifact := by
  subst h
  exact ⟨rfl, rfl, rfl⟩

theorem c9_determinism_witness :
    ([Node.h4 none (some "#t") "T"] = [Node.h4 none (some "#t") "T"]) ∧
    (retrieve_api_info [Node.h4 none (some "#t") "T"] =
        retrieve_api_info [Node.h4 none (some "#t") "T"] ∧
      main_program [Node.h4 none (some "#t") "T"] =
        main_program [Node.h4 none (some "#t") "T"] ∧
      (main_program [Node.h4 none (some "#t") "T"]).artifact =
        (main_program [Node.h4 none (some "#t") "T"]).artifact) :=
  ⟨rfl, c9_determinism _ _ rfl⟩

/-- A document on which type `A` declares subtype `B` while also having a
field table: extraction succeeds and validation passes. -/
def c6doc : List Node :=
  [Node.h4 none (some "#a") "A",
    Node.p [Inline.text "d"],
    Node.table [[[Inline.text "f"], [Inline.text "Integer"], [Inline.text "x"]]],
    Node.ul [[Inline.text "B"]],
    Node.h4 none (some "#b") "B",
    Node.p [Inline.text "d"],
    Node.table [[[Inline.text "f"], [Inline.text "Integer"], [Inline.text "x"]]]]

/-- C6 counterexample: type `A` declares `subtypes = ["B"]` and `B` exists,
the run validates cleanly (exit code 0), yet after validation `B` has no
`subtype_of` entry at all — the back-reference loop only runs for types
without fields, and `A` has a field table. -/
theorem c6_counterexample :
    ((retrieve_api_info c6doc).toOption.bind
        (fun items => (alookup items.types "A").map (fun e => e.subtypes))) =
      some (some ["B"]) ∧
    ((retrieve_api_info c6doc).toOption.map
        (fun items => containsKey items.types "B")) = some true ∧
    ((retrieve_api_info c6doc).toOption.map (fun items =>
        (alookup (verify_type_parameters items).2.1.types "B").map
          (fun e => e.subtype_of))) = some (some none) ∧
    (main_program c6doc).exitCode = 0 := by
  refine ⟨by decide, by decide, by decide, by decide⟩

/-- C6 (amended): if type `A` moreover has a (truthy) `href` and an empty
(or absent) `fields` sequence, and `A`'s subtypes contain `B` with `B` an
existing type key, then after the types pass `B.subtype_of` contains
`A`. -/
theorem c6_subtype_backref_amended (items : Registry) (A B : String) (eA : Entity)
    (hA : alookup items.types A = some eA)
    (hhref : truthyStr eA.href = true)
    (hfields : eA.fields.getD [] = [])
    (hB : B ∈ eA.subtypes.getD [])
    (hex : containsKey items.types B = true) :
    ∃ e, alookup ((verify_type_parameters items).2.1).types B = some e ∧
      A ∈ e.subtype_of.getD [] :=
  vtpFold_hits A B (items.types.map Prod.fst) ([], items, false)
    (Or.inl ⟨mem_keys_of_alookup hA, ⟨eA, hA, hhref, hfields, hB⟩, hex⟩)

def eA6 : Entity :=
  { name := "A", href := some "https://x", subtypes := some ["B"] }

def items6 : Registry :=
  { methods := [], types := [("A", eA6), ("B", { name := "B", href := some "https://x" })] }

theorem c6_subtype_backref_amended_witness :
    (alookup items6.types "A" = some eA6 ∧ truthyStr eA6.href = true ∧
      eA6.fields.getD [] = [] ∧ "B" ∈ eA6.subtypes.getD [] ∧
      containsKey items6.types "B" = true) ∧
    (∃ e, alookup ((verify_type_parameters items6).2.1).types "B" = some e ∧
      "A" ∈ e.subtype_of.getD []) :=
  ⟨⟨by decide, by decide, by decide, by decide, by decide⟩,
    c6_subtype_backref_amended items6 "A" "B" eA6 (by decide) (by decide)
      (by decide) (by decide) (by decide)⟩

def defaultField : Field :=
  { name := "", types := [], required := false, description := "" }

/-- C8: every extracted field record derives its `required` flag as
claimed — in a 3-column type row, `required` is true exactly when the
normalized description does not start with `"Optional. "`; in a 4-column
method row, exactly when the dedicated required column's raw text equals
`"Yes"`. -/
theorem c8_required_flag (curr_type : Cat) (curr_name : String)
    (rows : List (List (List Inline))) (fields : List Field)
    (h : get_fieldsRows curr_name curr_type rows = .ok fields) :
    fields.length = rows.length ∧
    ∀ i, i < fields.length →
      (fields.getD i defaultField).required =
        requiredSpec curr_type (rows.getD i []) := by
  induction rows generalizing fields with
  | nil =>
    unfold get_fieldsRows at h
    have hf : fields = [] := by
      cases h
      rfl
    subst hf
    exact ⟨rfl, by simp⟩
  | cons row rest ih =>
    unfold get_fieldsRows at h
    cases hrf : rowField curr_type row with
    | none =>
      rw [hrf] at h
      exact absurd h (by simp)
    | some f =>
      rw [hrf] at h
      cases hrest : get_fieldsRows curr_name curr_type rest with
      | error e =>
        rw [hrest] at h
        exact absurd h (by simp [Except.map])
      | ok fs =>
        rw [hrest] at h
        have hfs : fields = f :: fs := by
          simp [Except.map] at h
          exact h.symm
        subst hfs
        obtain ⟨hlen, hreq⟩ := ih fs hrest
        refine ⟨by simp [hlen], ?_⟩
        intro i hi
        cases i with
        | zero =>
          simpa using rowField_required hrf
        | succ i =>
          simp only [List.getD_cons_succ]
          exact hreq i (by simpa using hi)

def c8rowsT : List (List (List Inline)) :=
  [[[Inline.text "n"], [Inline.text "Integer"], [Inline.text "Optional. d"]]]

def c8fieldsT : List Field :=
  [{ name := "n", types := ["Integer"], required := false,
     description := "Optional. d" }]

def c8rowsM : List (List (List Inline)) :=
  [[[Inline.text "n"], [Inline.text "Integer"], [Inline.text "Yes"],
    [Inline.text "d"]]]

def c8fieldsM : List Field :=
  [{ name := "n", types := ["Integer"], required := true, description := "d" }]

theorem c8_required_flag_witness :
    (get_fieldsRows "T" Cat.types c8rowsT = Except.ok c8fieldsT ∧
      (c8fieldsT.length = c8rowsT.length ∧
        ∀ i, i < c8fieldsT.length →
          (c8fieldsT.getD i defaultField).required =
            requiredSpec Cat.types (c8rowsT.getD i []))) ∧
    (get_fieldsRows "m" Cat.methods c8rowsM = Except.ok c8fieldsM ∧
      (c8fieldsM.length = c8rowsM.length ∧
        ∀ i, i < c8fieldsM.length →
          (c8fieldsM.getD i defaultField).required =
            requiredSpec Cat.methods (c8rowsM.getD i []))) :=
  ⟨⟨rfl, c8_required_flag Cat.types "T" c8rowsT c8fieldsT rfl⟩,
    ⟨rfl, c8_required_flag Cat.methods "m" c8rowsM c8fieldsM rfl⟩⟩

theorem catMap_withCatMap (r : Registry) (c : Cat) (m : AList) :
    (r.withCatMap c m).catMap c = m := by
  cases c <;> rfl

/-- A document whose `InputFile` type entity has a paragraph and then a
list: the source's list handler returns before the description append. -/
def c7doc : List Node :=
  [Node.h4 none (some "#inputfile") "InputFile",
    Node.p [Inline.text "desc"],
    Node.ul [[Inline.text "x"]]]

/-- C7 counterexample: for the one fixed entity (`InputFile`) the list
handler returns before touching the description, so the bullet-prefixed
item is never appended — the entity's description stays `["desc"]` rather
than the claimed `["desc", "- x"]`. -/
theorem c7_counterexample :
    ((retrieve_api_info c7doc).toOption.bind
        (fun r => (alookup r.types "InputFile").map (fun e => e.description))) =
      some (some ["desc"]) ∧
    ((retrieve_api_info c7doc).toOption.bind
        (fun r => (alookup r.types "InputFile").map (fun e => e.description))) ≠
      some (some ["desc", "- x"]) := by
  refine ⟨by decide, by decide⟩

/-- C7 (amended): for every list node routed to an open entity whose name
is not `"InputFile"` and whose description key exists, every extracted
list item, prefixed with `"- "`, is appended to that entity's description,
for entities of both categories. -/
theorem c7_list_append_amended (curr_name : String) (curr_type : Cat)
    (lis : List (List Inline)) (items : Registry) (e : Entity) (d : List String)
    (hn : curr_name ≠ "InputFile")
    (he : alookup (items.catMap curr_type) curr_name = some e)
    (hd : e.description = some d) :
    ∃ items', get_subtypes curr_name curr_type lis items = .ok items' ∧
      (alookup (items'.catMap curr_type) curr_name).map (fun e' => e'.description) =
        some (some (d ++ (lis.map clean_tg_description).map (fun s => "- " ++ s))) := by
  cases curr_type with
  | methods =>
    unfold get_subtypes
    rw [if_neg hn]
    simp only [if_neg (fun hc : Cat.methods = Cat.types => by cases hc), he, hd]
    refine ⟨_, rfl, ?_⟩
    rw [catMap_withCatMap, alookup_amodify, if_pos (Eq.refl _), he]
    simp [hd]
  | types =>
    unfold get_subtypes
    rw [if_neg hn]
    have h1 : alookup
        ((items.withCatMap Cat.types
          (amodify (items.catMap Cat.types) curr_name
            (fun e' => { e' with
              subtypes := some (lis.map clean_tg_description) }))).catMap Cat.types)
        curr_name =
        some { e with subtypes := some (lis.map clean_tg_description) } := by
      rw [catMap_withCatMap, alookup_amodify, if_pos (Eq.refl _), he]
      rfl
    simp only [eq_self_iff_true, if_true, h1, hd]
    refine ⟨_, rfl, ?_⟩
    rw [catMap_withCatMap, alookup_amodify, if_pos (Eq.refl _), h1]
    simp [hd]

def c7witems : Registry :=
  { methods := [], types := [("T", { name := "T", description := some ["d"] })] }

theorem c7_list_append_amended_witness :
    (("T" : String) ≠ "InputFile" ∧
      alookup (c7witems.catMap Cat.types) "T" =
        some { name := "T", description := some ["d"] } ∧
      ({ name := "T", description := some ["d"] } : Entity).description =
        some ["d"]) ∧
    (∃ items', get_subtypes "T" Cat.types [[Inline.text "x"]] c7witems = .ok items' ∧
      (alookup (items'.catMap Cat.types) "T").map (fun e' => e'.description) =
        some (some (["d"] ++
          (([[Inline.text "x"]].map clean_tg_description)).map (fun s => "- " ++ s)))) :=
  ⟨⟨by decide, by decide, by decide⟩,
    c7_list_append_amended "T" Cat.types [[Inline.text "x"]] c7witems
      { name := "T", description := some ["d"] } ["d"]
      (by decide) (by decide) (by decide)⟩

/-! ## Error propagation through the segmenter -/

/-- When a prefix of the document reaches state `st` and the next node
makes the step fail, the whole extraction fails with that error. -/
theorem retrieve_error_at (d1 d2 : List Node) (x : Node) (st : SegState)
    (er : RunError)
    (h1 : List.foldlM segStep { reg := {}, curr := none } d1 = Except.ok st)
    (hx : segStep st x = .error er) :
    retrieve_api_info (d1 ++ x :: d2) = .error er := by
  unfold retrieve_api_info
  rw [segRun_append, h1, exceptBind_ok]
  simp only [List.foldlM_cons]
  rw [hx, exceptBind_error]
  rfl

/-- The list handler raises `KeyError` on the `description` access when the
open entity is not `InputFile` and its `description` key is absent (also
covering the impossible case of an absent entity). -/
theorem get_subtypes_keyError {n : String} {c : Cat} {lis : List (List Inline)}
    {r : Registry} (h3 : n ≠ "InputFile")
    (h4 : (alookup (r.catMap c) n).bind (fun e => e.description) = none) :
    get_subtypes n c lis r = .error (.keyError "description") := by
  cases c with
  | methods =>
    unfold get_subtypes
    rw [if_neg h3]
    simp only [if_neg (fun hc : Cat.methods = Cat.types => by cases hc)]
    cases he : alookup (r.catMap Cat.methods) n with
    | none => simp only [he]
    | some e =>
      rw [he] at h4
      simp only [Option.bind] at h4
      simp only [he, h4]
  | types =>
    unfold get_subtypes
    rw [if_neg h3]
    cases he : alookup (r.catMap Cat.types) n with
    | none =>
      have h1 : alookup
          ((r.withCatMap Cat.types
            (amodify (r.catMap Cat.types) n
              (fun e' => { e' with
                subtypes := some (lis.map clean_tg_description) }))).catMap Cat.types)
          n = none := by
        rw [catMap_withCatMap, alookup_amodify, if_pos (Eq.refl _), he]
        rfl
      simp only [eq_self_iff_true, if_true, h1]
    | some e =>
      rw [he] at h4
      simp only [Option.bind] at h4
      have h1 : alookup
          ((r.withCatMap Cat.types
            (amodify (r.catMap Cat.types) n
              (fun e' => { e' with
                subtypes := some (lis.map clean_tg_description) }))).catMap Cat.types)
          n = some { e with subtypes := some (lis.map clean_tg_description) } := by
        rw [catMap_withCatMap, alookup_amodify, if_pos (Eq.refl _), he]
        rfl
      simp only [eq_self_iff_true, if_true, h1, h4]

theorem segStep_ul_error {st : SegState} {c : Cat} {n : String}
    {lis : List (List Inline)} {er : RunError}
    (h2 : st.curr = some (c, n))
    (herr : get_subtypes n c lis st.reg = .error er) :
    segStep st (Node.ul lis) = .error er := by
  unfold segStep
  rw [h2]
  simp only [herr]
  rfl

/-- A document whose `InputFile` entity receives a list node before any
paragraph node. -/
def c10doc : List Node :=
  [Node.h4 none (some "#inputfile") "InputFile",
    Node.ul [[Inline.text "x"]]]

def inputFileEnt : Entity :=
  { name := "InputFile", href := some "https://core.telegram.org/bots/api#inputfile" }

/-- C10 counterexample: for the entity named `InputFile` the list handler
returns before the description access, so a list node arriving first does
not crash the run — extraction completes even though `InputFile` received
a list node without any preceding paragraph. -/
theorem c10_counterexample :
    (retrieve_api_info c10doc).toOption =
      some { methods := [], types := [("InputFile", inputFileEnt)] } := by
  decide

/-- C10 (amended): whenever a list node is routed to an open entity whose
name is not `"InputFile"` and whose `description` key has not been created
by a paragraph yet, the description append raises an uncaught `KeyError`
and the run terminates with exit status 1, printing nothing and writing no
artifact. -/
theorem c10_keyerror_amended (d1 d2 : List Node) (lis : List (List Inline))
    (st : SegState) (c : Cat) (n : String)
    (h1 : List.foldlM segStep { reg := {}, curr := none } d1 = Except.ok st)
    (h2 : st.curr = some (c, n))
    (h3 : n ≠ "InputFile")
    (h4 : (alookup (st.reg.catMap c) n).bind (fun e => e.description) = none) :
    retrieve_api_info (d1 ++ Node.ul lis :: d2) =
      .error (.keyError "description") ∧
    main_program (d1 ++ Node.ul lis :: d2) =
      { output := [], exitCode := 1, artifact := none } := by
  have hret := retrieve_error_at d1 d2 (Node.ul lis) st (.keyError "description")
    h1 (segStep_ul_error h2 (get_subtypes_keyError h3 h4))
  refine ⟨hret, ?_⟩
  unfold main_program
  rw [hret]

def c10went : Entity :=
  { name := "T", href := some "https://core.telegram.org/bots/api#t" }

def c10wstate : SegState :=
  { reg := { methods := [], types := [("T", c10went)] },
    curr := some (Cat.types, "T") }

theorem c10_keyerror_amended_witness :
    (List.foldlM segStep { reg := {}, curr := none }
        [Node.h4 none (some "#t") "T"] = Except.ok c10wstate ∧
      c10wstate.curr = some (Cat.types, "T") ∧
      ("T" : String) ≠ "InputFile" ∧
      (alookup (c10wstate.reg.catMap Cat.types) "T").bind
        (fun e => e.description) = none) ∧
    (retrieve_api_info
        ([Node.h4 none (some "#t") "T"] ++ Node.ul [[Inline.text "x"]] :: []) =
      .error (.keyError "description") ∧
    main_program
        ([Node.h4 none (some "#t") "T"] ++ Node.ul [[Inline.text "x"]] :: []) =
      { output := [], exitCode := 1, artifact := none }) :=
  ⟨⟨rfl, by decide, by decide, by decide⟩,
    c10_keyerror_amended [Node.h4 none (some "#t") "T"] [] [[Inline.text "x"]]
      c10wstate Cat.types "T" rfl (by decide) (by decide) (by decide)⟩

/-! ## Aborting on a table row with an unexpected column count -/

/-- The expected number of columns per entity category: 3 for a type row,
4 for a method row. -/
def expectedCols : Cat → Nat
  | .types => 3
  | .methods => 4

theorem rowField_none_iff (c : Cat) (row : List (List Inline)) :
    rowField c row = none ↔ row.length ≠ expectedCols c := by
  cases c with
  | types =>
    rcases row with (_ | ⟨c0, (_ | ⟨c1, (_ | ⟨c2, (_ | ⟨c3, rest⟩)⟩)⟩)⟩) <;>
      simp [rowField, expectedCols]
  | methods =>
    rcases row with (_ | ⟨c0, (_ | ⟨c1, (_ | ⟨c2, (_ | ⟨c3, (_ | ⟨c4, rest⟩)⟩)⟩)⟩)⟩) <;>
      simp [rowField, expectedCols]

/-- The row loop fails at the first bad row whenever some row is bad. -/
theorem get_fieldsRows_first_bad (n : String) (c : Cat) :
    ∀ rows : List (List (List Inline)),
      (∃ row ∈ rows, rowField c row = none) →
      ∃ row, row ∈ rows ∧ rowField c row = none ∧
        get_fieldsRows n c rows = .error (.badRow c n row) := by
  intro rows
  induction rows with
  | nil => rintro ⟨row, hmem, _⟩; simp at hmem
  | cons row rest ih =>
    intro hex
    cases hrf : rowField c row with
    | none =>
      refine ⟨row, List.mem_cons_self _ _, hrf, ?_⟩
      unfold get_fieldsRows
      rw [hrf]
    | some f =>
      obtain ⟨row', hmem', hnone'⟩ := hex
      have hmem'' : row' ∈ rest := by
        rcases List.mem_cons.mp hmem' with rfl | h
        · rw [hrf] at hnone'
          cases hnone'
        · exact h
      obtain ⟨row'', hmem2, hnone2, herr⟩ := ih ⟨row', hmem'', hnone'⟩
      refine ⟨row'', List.mem_cons_of_mem _ hmem2, hnone2, ?_⟩
      unfold get_fieldsRows
      rw [hrf, herr]
      rfl

theorem segStep_table_error {st : SegState} {c : Cat} {n : String}
    {rows : List (List (List Inline))} {er : RunError}
    (h2 : st.curr = some (c, n))
    (herr : get_fieldsRows n c rows = .error er) :
    segStep st (Node.table rows) = .error er := by
  unfold segStep
  rw [h2]
  show (get_fields n c rows st.reg).map _ = _
  unfold get_fields
  rw [herr]
  rfl

/-- C3: a table row whose column count is not the expected one for the
open entity's category (3 columns for a type, 4 for a method) aborts the
run at that table: the process exits with status 1, the printed diagnostic
identifies the entity, its category and the row shape, and no artifact is
written. -/
theorem c3_bad_row_aborts (d1 d2 : List Node) (rows : List (List (List Inline)))
    (st : SegState) (c : Cat) (n : String)
    (h1 : List.foldlM segStep { reg := {}, curr := none } d1 = Except.ok st)
    (h2 : st.curr = some (c, n))
    (h3 : ∃ row ∈ rows, row.length ≠ expectedCols c) :
    ∃ row, row ∈ rows ∧ row.length ≠ expectedCols c ∧
      main_program (d1 ++ Node.table rows :: d2) =
        { output := badRowPrints c n row, exitCode := 1, artifact := none } := by
  have h3' : ∃ row ∈ rows, rowField c row = none := by
    obtain ⟨row, hmem, hlen⟩ := h3
    exact ⟨row, hmem, (rowField_none_iff c row).mpr hlen⟩
  obtain ⟨row, hmem, hnone, herr⟩ := get_fieldsRows_first_bad n c rows h3'
  refine ⟨row, hmem, (rowField_none_iff c row).mp hnone, ?_⟩
  have hret := retrieve_error_at d1 d2 (Node.table rows) st (.badRow c n row)
    h1 (segStep_table_error h2 herr)
  unfold main_program
  rw [hret]

def c3wstate : SegState :=
  { reg := { methods := [], types := [("T", c10went)] },
    curr := some (Cat.types, "T") }

theorem c3_bad_row_aborts_witness :
    (List.foldlM segStep { reg := {}, curr := none }
        [Node.h4 none (some "#t") "T"] = Except.ok c3wstate ∧
      c3wstate.curr = some (Cat.types, "T") ∧
      (∃ row ∈ [[[Inline.text "a"], [Inline.text "b"]]],
        List.length row ≠ expectedCols Cat.types)) ∧
    (∃ row, row ∈ [[[Inline.text "a"], [Inline.text "b"]]] ∧
      List.length row ≠ expectedCols Cat.types ∧
      main_program ([Node.h4 none (some "#t") "T"] ++
          Node.table [[[Inline.text "a"], [Inline.text "b"]]] :: []) =
        { output := badRowPrints Cat.types "T" row,
          exitCode := 1, artifact := none }) :=
  ⟨⟨rfl, by decide, ⟨[[Inline.text "a"], [Inline.text "b"]], by decide, by decide⟩⟩,
    c3_bad_row_aborts [Node.h4 none (some "#t") "T"] []
      [[[Inline.text "a"], [Inline.text "b"]]] c3wstate Cat.types "T" rfl
      (by decide)
      ⟨[[Inline.text "a"], [Inline.text "b"]], by decide, by decide⟩⟩

/-! ## The validated run: flags and transcript -/

theorem any_false_forall {α : Type} {l : List α} {p : α → Bool}
    (h : l.any p = false) : ∀ x ∈ l, p x = false := by
  intro x hx
  by_contra hpx
  rw [Bool.not_eq_false] at hpx
  rw [List.any_eq_true.mpr ⟨x, hx, hpx⟩] at h
  exact absurd h (by simp)

/-- A run that exits with status 0 found no defect in either pass. -/
theorem main_exit0_flags (doc : List Node) (items : Registry)
    (hok : retrieve_api_info doc = Except.ok items)
    (hexit : (main_program doc).exitCode = 0) :
    (verify_type_parameters items).2.2 = false ∧
    (verify_method_parameters (verify_type_parameters items).2.1).2 = false := by
  unfold main_program at hexit
  simp only [hok] at hexit
  by_cases h1 : (verify_type_parameters items).2.2 = true
  · rw [if_pos h1] at hexit
    simp at hexit
  · rw [if_neg h1] at hexit
    by_cases h2 : (verify_method_parameters (verify_type_parameters items).2.1).2 = true
    · rw [if_pos h2] at hexit
      simp at hexit
    · exact ⟨by simpa using h1, by simpa using h2⟩

/-- The transcript of a run whose extraction succeeded: the types-pass
lines, then (only when the types pass found nothing) the methods-pass
lines, then (on any defect) the single aggregate failure line, last. -/
theorem main_output_structure (doc : List Node) (items : Registry)
    (hok : retrieve_api_info doc = Except.ok items) :
    (main_program doc).output =
      (verify_type_parameters items).1 ++
      (if (verify_type_parameters items).2.2 then []
        else (verify_method_parameters (verify_type_parameters items).2.1).1) ++
      (if ((verify_type_parameters items).2.2 ||
            (verify_method_parameters (verify_type_parameters items).2.1).2) = true
        then [failMsg] else []) := by
  unfold main_program
  simp only [hok]
  by_cases h1 : (verify_type_parameters items).2.2 = true
  · rw [if_pos h1, if_pos h1, h1]
    simp
  · rw [if_neg h1, if_neg h1]
    have h1f : (verify_type_parameters items).2.2 = false := by simpa using h1
    by_cases h2 : (verify_method_parameters (verify_type_parameters items).2.1).2 = true
    · rw [if_pos h2, h1f, h2]
      simp
    · have h2f : (verify_method_parameters (verify_type_parameters items).2.1).2 = false := by
        simpa using h2
      rw [if_neg h2, h1f, h2f]
      simp

/-- A document whose only type entity has a field with the union type
`["Bogus", "String"]`: validation passes because only the last stripped
union member is checked. -/
def c2doc : List Node :=
  [Node.h4 none (some "#t") "T",
    Node.p [Inline.text "d"],
    Node.table [[[Inline.text "f"], [Inline.text "Bogus, String"],
      [Inline.text "x"]]]]

/-- C2 counterexample: the run exits successfully and writes the artifact,
the type `T` has a field whose union types are `["Bogus", "String"]`, yet
the stripped member `"Bogus"` is neither a core type nor an existing type
key — the claimed invariant fails for non-final union members of a type
entity's field. -/
theorem c2_counterexample :
    (main_program c2doc).exitCode = 0 ∧
    (main_program c2doc).artifact ≠ none ∧
    ((retrieve_api_info c2doc).toOption.bind (fun items =>
        (alookup items.types "T").map (fun e =>
          (e.fields.getD []).map (fun q => q.types)))) =
      some [["Bogus", "String"]] ∧
    ((retrieve_api_info c2doc).toOption.map (fun items =>
        resolvesIn items.types (stripArray "Bogus"))) = some false := by
  refine ⟨by decide, by decide, by decide, by decide⟩

/-- C2 (amended): after a run that exits successfully, every union member
of every method field type and every method return type resolves (after
stripping all `"Array of "` markers) to a core type or an existing type
key; for type entities' fields only the last listed union member of each
field is guaranteed to resolve. -/
theorem c2_resolution_amended (doc : List Node) (items : Registry)
    (hok : retrieve_api_info doc = Except.ok items)
    (hexit : (main_program doc).exitCode = 0) :
    (∀ k e, alookup items.types k = some e →
      ∀ q ∈ e.fields.getD [], ∀ tl, q.types.getLast? = some tl →
        resolvesIn items.types (stripArray tl) = true) ∧
    (∀ kv ∈ items.methods,
      (∀ q ∈ kv.2.fields.getD [], ∀ t ∈ q.types,
        resolvesIn items.types (stripArray t) = true) ∧
      (∀ ret ∈ kv.2.returns.getD [],
        resolvesIn items.types (stripArray ret) = true)) := by
  obtain ⟨hti, hmi⟩ := main_exit0_flags doc items hok hexit
  constructor
  · intro k e he q hq tl htl
    have hany : ((items.types.map Prod.fst).any
        (fun k => (vtpStep items k).2.2)) = false := by
      rw [← verify_type_parameters_issue items]
      exact hti
    have hstep : (vtpStep items k).2.2 = false :=
      any_false_forall hany k (mem_keys_of_alookup he)
    exact (vtpStep_issue_false he hstep).2 q hq tl htl
  · intro kv hkv
    have hev := evolves_verify_type_parameters items
    have hany : (((verify_type_parameters items).2.1).methods.any
        (fun kv => (vmpEntity ((verify_type_parameters items).2.1).types kv.1 kv.2).2))
          = false := by
      rw [← verify_method_parameters_issue]
      exact hmi
    have hkv' : kv ∈ ((verify_type_parameters items).2.1).methods := by
      rw [hev.methods_eq]
      exact hkv
    have hent : (vmpEntity ((verify_type_parameters items).2.1).types kv.1 kv.2).2
        = false := any_false_forall hany kv hkv'
    obtain ⟨_, _, hf, hr⟩ := vmpEntity_false hent
    have htr : ∀ t, resolvesIn ((verify_type_parameters items).2.1).types t =
        resolvesIn items.types t := by
      intro t
      unfold resolvesIn
      rw [containsKey_congr hev.keys_eq]
    refine ⟨fun q hq t ht => ?_, fun ret hret => ?_⟩
    · rw [← htr]
      exact hf q hq t ht
    · rw [← htr]
      exact hr ret hret

/-- The registry a successful extraction yields (used by the witnesses to
instantiate run-level theorems at concrete documents). -/
def extractedRegistry (doc : List Node) : Registry :=
  (retrieve_api_info doc).toOption.getD {}

def c2wdoc : List Node :=
  [Node.h4 none (some "#t") "T",
    Node.p [Inline.text "d"],
    Node.table [[[Inline.text "f"], [Inline.text "Integer"], [Inline.text "x"]]]]

theorem c2_resolution_amended_witness :
    (retrieve_api_info c2wdoc = Except.ok (extractedRegistry c2wdoc) ∧
      (main_program c2wdoc).exitCode = 0) ∧
    ((∀ k e, alookup (extractedRegistry c2wdoc).types k = some e →
      ∀ q ∈ e.fields.getD [], ∀ tl, q.types.getLast? = some tl →
        resolvesIn (extractedRegistry c2wdoc).types (stripArray tl) = true) ∧
    (∀ kv ∈ (extractedRegistry c2wdoc).methods,
      (∀ q ∈ kv.2.fields.getD [], ∀ t ∈ q.types,
        resolvesIn (extractedRegistry c2wdoc).types (stripArray t) = true) ∧
      (∀ ret ∈ kv.2.returns.getD [],
        resolvesIn (extractedRegistry c2wdoc).types (stripArray ret) = true))) :=
  ⟨⟨rfl, by decide⟩,
    c2_resolution_amended c2wdoc (extractedRegistry c2wdoc) rfl (by decide)⟩

/-- A document with a type `T` that has no href and an unknown field type,
and a method `m` with a link but no inferable return type. -/
def c1doc : List Node :=
  [Node.h4 none none "T",
    Node.p [Inline.text "d"],
    Node.table [[[Inline.text "f"], [Inline.text "Bogus"], [Inline.text "x"]]],
    Node.h4 none (some "#m") "m",
    Node.p [Inline.text "hello"]]

/-- C1 counterexample: the registry holds three referential defects (type
`T` lacks a link and has the unknown field type `Bogus`; method `m` has no
return type), but the run reports only the missing link before the
aggregate failure: the missing-href `continue` suppresses `T`'s own
field-type check, and the short-circuiting `or` in `__main__` suppresses
the entire methods pass — running the methods pass on the same registry
standalone does report the missing return type. -/
theorem c1_counterexample :
    main_program c1doc =
      { output := ["T has no link!", failMsg], exitCode := 1, artifact := none } ∧
    ((retrieve_api_info c1doc).toOption.bind (fun items =>
        (alookup items.types "T").map (fun e =>
          (e.fields.getD []).map (fun q => q.types)))) = some [["Bogus"]] ∧
    ((retrieve_api_info c1doc).toOption.map (fun items =>
        resolvesIn items.types (stripArray "Bogus"))) = some false ∧
    ¬ ("UNKNOWN FIELD TYPE Bogus" ∈ (main_program c1doc).output) ∧
    ((retrieve_api_info c1doc).toOption.map (fun items =>
        (verify_method_parameters (verify_type_parameters items).2.1).1)) =
      some ["m has no return types!"] ∧
    ¬ ("m has no return types!" ∈ (main_program c1doc).output) := by
  refine ⟨by decide, by decide, by decide, by decide, by decide, by decide⟩

/-- C1 (amended): within each validator pass that runs, defects accumulate
per entity with no short-circuit across entities — the types-pass
transcript is the concatenation of each type's own defect lines (computed
against the registry, independent of earlier types' defects), and likewise
for the methods pass; the overall transcript is the types-pass lines, then
the methods-pass lines only when the types pass found no defect (a
types-pass failure suppresses the methods pass entirely), then the single
aggregate failure line last.  A type's missing href still suppresses that
same type's own remaining checks (inside `vtpStep`), and defects in
methods are only reported when the types pass was clean. -/
theorem c1_defect_reporting_amended (doc : List Node) (items : Registry)
    (hok : retrieve_api_info doc = Except.ok items) :
    ((verify_type_parameters items).1 =
      (items.types.map Prod.fst).flatMap (fun k => (vtpStep items k).1)) ∧
    ((verify_method_parameters (verify_type_parameters items).2.1).1 =
      items.methods.flatMap (fun kv =>
        (vmpEntity ((verify_type_parameters items).2.1).types kv.1 kv.2).1)) ∧
    (main_program doc).output =
      (verify_type_parameters items).1 ++
      (if (verify_type_parameters items).2.2 then []
        else (verify_method_parameters ((verify_type_parameters items).2.1)).1) ++
      (if ((verify_type_parameters items).2.2 ||
            (verify_method_parameters ((verify_type_parameters items).2.1)).2) = true
        then [failMsg] else []) := by
  refine ⟨verify_type_parameters_prints items, ?_, main_output_structure doc items hok⟩
  rw [verify_method_parameters_prints ((verify_type_parameters items).2.1)]
  rw [(evolves_verify_type_parameters items).methods_eq]

def c1wdoc : List Node :=
  [Node.h4 none (some "#u") "U",
    Node.p [Inline.text "d"],
    Node.table [[[Inline.text "f"], [Inline.text "Integer"], [Inline.text "x"]]],
    Node.h4 none (some "#g") "g",
    Node.p [Inline.text "Returns a Boolean on success."]]

theorem c1_defect_reporting_amended_witness :
    (retrieve_api_info c1wdoc = Except.ok (extractedRegistry c1wdoc)) ∧
    (((verify_type_parameters (extractedRegistry c1wdoc)).1 =
      ((extractedRegistry c1wdoc).types.map Prod.fst).flatMap
        (fun k => (vtpStep (extractedRegistry c1wdoc) k).1)) ∧
    ((verify_method_parameters
        (verify_type_parameters (extractedRegistry c1wdoc)).2.1).1 =
      (extractedRegistry c1wdoc).methods.flatMap (fun kv =>
        (vmpEntity ((verify_type_parameters (extractedRegistry c1wdoc)).2.1).types
          kv.1 kv.2).1)) ∧
    (main_program c1wdoc).output =
      (verify_type_parameters (extractedRegistry c1wdoc)).1 ++
      (if (verify_type_parameters (extractedRegistry c1wdoc)).2.2 then []
        else (verify_method_parameters
          ((verify_type_parameters (extractedRegistry c1wdoc)).2.1)).1) ++
      (if ((verify_type_parameters (extractedRegistry c1wdoc)).2.2 ||
            (verify_method_parameters
              ((verify_type_parameters (extractedRegistry c1wdoc)).2.1)).2) = true
        then [failMsg] else [])) :=
  ⟨rfl, c1_defect_reporting_amended c1wdoc (extractedRegistry c1wdoc) rfl⟩

end TgScrape
